import Mathlib

/-
Verification development for the graph interpreter in
`blackjack_engine/src/graph_interpreter.rs`.

The interpreter is shallowly embedded: Lua tables become association
lists from `String` to a model of `mlua::Value`; the externally supplied
Lua operations (the `node_library` registry) become a parameter mapping
an op name to a record of optional callables; the mutable
`InterpreterContext` threaded through the recursion becomes explicit
state passing; Rust `Result` becomes an error component returned next to
the final state (the Rust context is a `&mut` borrow, so its state
survives an `Err` return).  Recursion depth is made explicit with a fuel
parameter; running out of fuel is reported with a distinguished error
that the real (fuel-free) recursion can never produce, and the two
`expect` panics in the source are modelled as two further distinguished
errors.  A ghost event trace records every invocation of an operation or
gizmo hook so that "executes exactly once" style properties can be
stated.
-/

namespace Blackjack

/-- Model of `mlua::Value`: nil, a scalar payload, or a table.  Tables are
association lists; `mlua` table access returns nil for an absent key and
setting a key to nil removes it, which `tget`/`tset` below reproduce. -/
inductive LValue where
  | nil
  | num (n : Int)
  | str (s : String)
  | table (fields : List (String × LValue))

/-- A Lua table as used by the interpreter: named fields. -/
abbrev LTable := List (String × LValue)

/-- Table read, `mlua`'s `Table::get` with target type `mlua::Value`:
absent keys read as nil and never error. -/
def tget (t : LTable) (k : String) : LValue :=
  match t.find? (fun p => p.1 == k) with
  | some p => p.2
  | none => .nil

/-- Table write, `mlua`'s `Table::set`: writing nil removes the key,
anything else replaces the binding. -/
def tset (t : LTable) (k : String) (v : LValue) : LTable :=
  match v with
  | .nil => t.filter (fun p => p.1 != k)
  | v => (k, v) :: t.filter (fun p => p.1 != k)

/-- `BjkNodeId` (a slotmap key in the source) is modelled as an index. -/
abbrev BjkNodeId := Nat

/-- `BlackjackGizmo` (crate `gizmos`, outside the interpreter) is opaque
to the interpreter, which only stores and forwards gizmos; a numeric
token suffices. -/
abbrev BlackjackGizmo := Nat

/-- `BlackjackValue` (crate `graph`) is opaque to the interpreter except
for its infallible-in-practice `to_lua` conversion; it is modelled as a
Lua value with `to_lua` the identity. -/
abbrev BlackjackValue := LValue

/-- `ExternalParameter`: value-equality key of (node id, input name),
lines 8-21 of `graph_interpreter.rs`. -/
structure ExternalParameter where
  node_id : BjkNodeId
  param_name : String

/-- `ExternalParameterValues`, line 24: a map from `ExternalParameter` to
`BlackjackValue`, modelled as an association list. -/
abbrev ExternalParameterValues := List (ExternalParameter × BlackjackValue)

/-- Lookup in the external parameter store (`self.0.get(&ext)`). -/
def epLookup (vals : ExternalParameterValues) (k : ExternalParameter) :
    Option BlackjackValue :=
  (vals.find? fun p =>
    p.1.node_id == k.node_id && p.1.param_name == k.param_name).map (·.2)

/-- `DependencyKind` from crate `graph`: each node input is either fed by
a Connection to a producer node's named output or is an External
user-set parameter (the `promoted` flag is evaluation-irrelevant
metadata). -/
inductive DependencyKind where
  | Connection (node : BjkNodeId) (param_name : String)
  | External (promoted : Bool)

/-- A node input: a name plus its dependency kind. -/
structure BjkInput where
  name : String
  kind : DependencyKind

/-- A graph node: operation name, ordered inputs, and the optional
return-output name (`return_value`). -/
structure BjkNode where
  op_name : String
  return_value : Option String
  inputs : List BjkInput

instance : Inhabited BjkNode := ⟨{ op_name := "", return_value := none, inputs := [] }⟩

/-- `BjkGraph`: the node store.  Slotmap keys are modelled as list
indices; the interpreter is only ever handed valid ids (indexing with an
invalid id panics in the source), so out-of-range reads return a default
inert node. -/
structure BjkGraph where
  nodes : List BjkNode

/-- `graph.nodes[node_id]`. -/
def getNode (g : BjkGraph) (i : BjkNodeId) : BjkNode :=
  g.nodes.getD i default

/-- One entry of `NodeDefinitions` (crate `graph`): the interpreter only
reads the `has_gizmo` flag. -/
structure NodeDef where
  has_gizmo : Bool

/-- `NodeDefinitions`: op name to definition, `node_def` returning an
`Option`. -/
abbrev NodeDefinitions := String → Option NodeDef

/-- `GizmoConfig`, lines 38-42 (the `RinGizmoOut` spelling is the
source's). -/
inductive GizmoConfig where
  | IgnoreGizmos
  | RunGizmosInOut (gizmos : List BlackjackGizmo)
  | RinGizmoOut

/-- Ghost trace event: one invocation of an operation or gizmo hook,
with the arguments it received. -/
inductive Event where
  | preCall (node : BjkNodeId) (inputs : LTable) (gizmos : List BlackjackGizmo)
  | opCall (node : BjkNodeId) (inputs : LTable)
  | postCall (node : BjkNodeId) (outputs : LTable)

/-- Errors surfaced by the interpreter.  `outOfFuel` is the fuel model's
stand-in for unbounded recursion; `panicCacheAfterRun` and
`panicFinalNode` model the two `expect` panics (lines 121 and 75). -/
inductive RunError where
  | outOfFuel
  | defNotFound (op_name : String)
  | luaError (msg : String)
  | missingExternalParameter (param_name : String) (node_id : BjkNodeId)
  | gizmoPreMissing
  | gizmoPreFailed (msg : String)
  | opMissing
  | opNotTable (got : LValue)
  | gizmoPostMissing
  | gizmoPostFailed (msg : String)
  | panicCacheAfterRun
  | panicFinalNode
  | missingReturnOutput

/-- The Lua-side node table obtained from
`require('node_library'):getNode(op_name)`: the `op` callable and the
optional gizmo hooks, each a pure function returning a Lua-level result
(`Except String` models an `mlua` call/conversion error). -/
structure NodeTable where
  op : Option (LTable → Except String LValue)
  pre_gizmo : Option (LTable → List BlackjackGizmo → Except String LTable)
  post_gizmo : Option (LTable → Except String (List BlackjackGizmo))

/-- The Lua state, used by the interpreter only to load node tables by op
name (lines 143-145); loading may fail with a Lua error. -/
abbrev LuaEnv := String → Except String NodeTable

/-- `InterpreterContext`, lines 26-36, plus the ghost `trace`.  The
fields other than the cache, the gizmo accumulator and the trace are
never written by the interpreter. -/
structure InterpreterContext where
  outputs_cache : List (BjkNodeId × LTable)
  external_param_values : ExternalParameterValues
  node_definitions : NodeDefinitions
  target_node : BjkNodeId
  gizmos_enabled : Bool
  gizmo_config : GizmoConfig
  gizmo_outputs : List BlackjackGizmo
  trace : List Event

/-- `outputs_cache.get(&node_id)`. -/
def cacheLookup (c : List (BjkNodeId × LTable)) (n : BjkNodeId) : Option LTable :=
  (c.find? fun p => p.1 == n).map (·.2)

/-- `outputs_cache.insert(node_id, outputs)`: replaces any previous
binding. -/
def cacheInsert (c : List (BjkNodeId × LTable)) (n : BjkNodeId) (t : LTable) :
    List (BjkNodeId × LTable) :=
  (n, t) :: c.filter fun p => p.1 != n

/-- Lines 147-169 of `run_node`: when gizmos are enabled for the pass,
the node is the target, and the definition declares gizmo support, and
the active config is `RunGizmosInOut`, call the pre-gizmo hook and
replace the input map with its result; otherwise pass the input map
through unchanged. -/
def apply_pre_gizmo (nt : NodeTable) (hasGizmo : Bool) (node_id : BjkNodeId)
    (input_map : LTable) (ctx : InterpreterContext) :
    Except RunError LTable × InterpreterContext :=
  if ctx.gizmos_enabled && node_id == ctx.target_node && hasGizmo then
    match ctx.gizmo_config with
    | .RunGizmosInOut gizmos_in =>
      match nt.pre_gizmo with
      | none => (.error .gizmoPreMissing, ctx)
      | some pre_fn =>
        let ctx1 := { ctx with
          trace := ctx.trace ++ [.preCall node_id input_map gizmos_in] }
        match pre_fn input_map gizmos_in with
        | .error e => (.error (.gizmoPreFailed e), ctx1)
        | .ok new_map => (.ok new_map, ctx1)
    | _ => (.ok input_map, ctx)
  else (.ok input_map, ctx)

/-- Lines 171-182 of `run_node`: fetch the `op` callable, invoke it with
the input map, require a table result, and insert it into the outputs
cache. -/
def run_op (nt : NodeTable) (node_id : BjkNodeId) (input_map : LTable)
    (ctx : InterpreterContext) : Except RunError LTable × InterpreterContext :=
  match nt.op with
  | none => (.error .opMissing, ctx)
  | some op_fn =>
    let ctx1 := { ctx with trace := ctx.trace ++ [.opCall node_id input_map] }
    match op_fn input_map with
    | .error e => (.error (.luaError e), ctx1)
    | .ok (.table outs) =>
      (.ok outs,
       { ctx1 with outputs_cache := cacheInsert ctx1.outputs_cache node_id outs })
    | .ok other => (.error (.opNotTable other), ctx1)

/-- Lines 184-195 of `run_node`: when gizmos are enabled, the node is the
target, and the definition declares gizmo support (any enabled config
variant), call the post-gizmo hook on the outputs and overwrite the
gizmo accumulator with its result. -/
def apply_post_gizmo (nt : NodeTable) (hasGizmo : Bool) (node_id : BjkNodeId)
    (outputs : LTable) (ctx : InterpreterContext) :
    Except RunError Unit × InterpreterContext :=
  if ctx.gizmos_enabled && node_id == ctx.target_node && hasGizmo then
    match nt.post_gizmo with
    | none => (.error .gizmoPostMissing, ctx)
    | some post_fn =>
      let ctx1 := { ctx with trace := ctx.trace ++ [.postCall node_id outputs] }
      match post_fn outputs with
      | .error e => (.error (.gizmoPostFailed e), ctx1)
      | .ok gs => (.ok (), { ctx1 with gizmo_outputs := gs })
  else (.ok (), ctx)

/-- Lines 110-141 of `run_node`: the input-resolution loop, abstracted
over the recursive call (`runNodeF` is `run_node` at the remaining fuel).
A Connection input reuses the producer's cached outputs when present and
otherwise runs the producer first, then reads the named output (nil when
absent, as `mlua` reads); an External input is looked up in the store
keyed by this node's id and the input name. -/
def resolve_inputs
    (runNodeF : InterpreterContext → BjkNodeId →
      Except RunError Unit × InterpreterContext)
    (node_id : BjkNodeId) :
    List BjkInput → InterpreterContext → LTable →
      Except RunError LTable × InterpreterContext
  | [], ctx, acc => (.ok acc, ctx)
  | input :: rest, ctx, acc =>
    match input.kind with
    | .Connection pnode pname =>
      match cacheLookup ctx.outputs_cache pnode with
      | some cached =>
        resolve_inputs runNodeF node_id rest ctx
          (tset acc input.name (tget cached pname))
      | none =>
        match runNodeF ctx pnode with
        | (.error e, ctx') => (.error e, ctx')
        | (.ok _, ctx') =>
          match cacheLookup ctx'.outputs_cache pnode with
          | none => (.error .panicCacheAfterRun, ctx')
          | some cached =>
            resolve_inputs runNodeF node_id rest ctx'
              (tset acc input.name (tget cached pname))
    | .External _ =>
      match epLookup ctx.external_param_values ⟨node_id, input.name⟩ with
      | none => (.error (.missingExternalParameter input.name node_id), ctx)
      | some val =>
        resolve_inputs runNodeF node_id rest ctx (tset acc input.name val)

/-- `run_node`, lines 94-198: look up the node definition, resolve the
inputs (recursing into uncached producers), load the node's Lua table,
apply the pre-gizmo hook, run the operation, cache its outputs, and
apply the post-gizmo hook.  The fuel argument bounds recursion depth. -/
def run_node (lua : LuaEnv) (graph : BjkGraph) :
    Nat → InterpreterContext → BjkNodeId →
      Except RunError Unit × InterpreterContext
  | 0, ctx, _ => (.error .outOfFuel, ctx)
  | fuel+1, ctx, node_id =>
    let node := getNode graph node_id
    match ctx.node_definitions node.op_name with
    | none => (.error (.defNotFound node.op_name), ctx)
    | some node_def =>
      match resolve_inputs (fun c j => run_node lua graph fuel c j)
          node_id node.inputs ctx [] with
      | (.error e, ctx1) => (.error e, ctx1)
      | (.ok input_map, ctx1) =>
        match lua node.op_name with
        | .error e => (.error (.luaError e), ctx1)
        | .ok node_table =>
          match apply_pre_gizmo node_table node_def.has_gizmo node_id
              input_map ctx1 with
          | (.error e, ctx2) => (.error e, ctx2)
          | (.ok input_map2, ctx2) =>
            match run_op node_table node_id input_map2 ctx2 with
            | (.error e, ctx3) => (.error e, ctx3)
            | (.ok outputs, ctx3) =>
              apply_post_gizmo node_table node_def.has_gizmo node_id outputs ctx3

/-- Modelled from the spec: `RenderableThing` (crate `lua_engine`, not
under `src/`) is the externally visible renderable result, opaque here
beyond wrapping the Lua value it was converted from. -/
structure RenderableThing where
  val : LValue

/-- Modelled from the spec: `RenderableThing::from_lua_value` (crate
`lua_engine`, not under `src/`).  Per the spec, the pass fails when the
declared return-output name is absent from the target's cached outputs;
an absent key reads as Lua nil, so conversion fails exactly on nil. -/
def from_lua_value (v : LValue) : Except RunError RenderableThing :=
  match v with
  | .nil => .error .missingReturnOutput
  | v => .ok ⟨v⟩

/-- `ProgramResult` (crate `lua_engine`): the fields constructed at lines
83-91. -/
structure ProgramResult where
  renderable : Option RenderableThing
  updated_gizmos : Option (List BlackjackGizmo)
  updated_values : ExternalParameterValues

/-- Line 52-55: gizmos are enabled for the pass iff the config is
`RinGizmoOut` or `RunGizmosInOut`. -/
def gizmosEnabledOf : GizmoConfig → Bool
  | .IgnoreGizmos => false
  | .RunGizmosInOut _ => true
  | .RinGizmoOut => true

/-- Lines 57-66: the fresh evaluation context built by `run_graph`. -/
def init_context (vals : ExternalParameterValues) (defs : NodeDefinitions)
    (target : BjkNodeId) (cfg : GizmoConfig) : InterpreterContext :=
  { outputs_cache := []
    external_param_values := vals
    node_definitions := defs
    target_node := target
    gizmos_enabled := gizmosEnabledOf cfg
    gizmo_config := cfg
    gizmo_outputs := []
    trace := [] }

/-- `run_graph`, lines 44-92, with the final context also returned (the
published entry point `run_graph` below projects it away): run the
target node, then, when the target declares a return output, read it
from the target's cached outputs (the `expect` at line 75 is the
`panicFinalNode` error) and convert it; package the renderable, the
gizmo outputs (only when gizmos were enabled) and the parameter store. -/
def run_graph_core (lua : LuaEnv) (graph : BjkGraph) (target_node : BjkNodeId)
    (external_param_values : ExternalParameterValues)
    (node_definitions : NodeDefinitions) (gizmo_config : GizmoConfig)
    (fuel : Nat) : Except RunError ProgramResult × InterpreterContext :=
  match run_node lua graph fuel
      (init_context external_param_values node_definitions target_node
        gizmo_config) target_node with
  | (.error e, ctx') => (.error e, ctx')
  | (.ok _, ctx') =>
    match (getNode graph target_node).return_value with
    | some return_value =>
      match cacheLookup ctx'.outputs_cache target_node with
      | none => (.error .panicFinalNode, ctx')
      | some output =>
        match from_lua_value (tget output return_value) with
        | .error e => (.error e, ctx')
        | .ok r =>
          (.ok { renderable := some r
                 updated_gizmos :=
                   if gizmosEnabledOf gizmo_config then some ctx'.gizmo_outputs
                   else none
                 updated_values := ctx'.external_param_values }, ctx')
    | none =>
      (.ok { renderable := none
             updated_gizmos :=
               if gizmosEnabledOf gizmo_config then some ctx'.gizmo_outputs
               else none
             updated_values := ctx'.external_param_values }, ctx')

/-- `run_graph`: the `Result<ProgramResult>` the caller sees. -/
def run_graph (lua : LuaEnv) (graph : BjkGraph) (target_node : BjkNodeId)
    (external_param_values : ExternalParameterValues)
    (node_definitions : NodeDefinitions) (gizmo_config : GizmoConfig)
    (fuel : Nat) : Except RunError ProgramResult :=
  (run_graph_core lua graph target_node external_param_values node_definitions
    gizmo_config fuel).1

/-- Number of times a node's operation was invoked, read off the ghost
trace. -/
def opCount (tr : List Event) (id : BjkNodeId) : Nat :=
  tr.countP fun e =>
    match e with
    | .opCall n _ => n == id
    | _ => false

/-- Dependency edge: node `a` has a Connection input fed by node `b`. -/
def Edge (g : BjkGraph) (a b : BjkNodeId) : Prop :=
  ∃ iname pname, (⟨iname, .Connection b pname⟩ : BjkInput) ∈ (getNode g a).inputs

/-- Reachability along dependency edges. -/
def Reachable (g : BjkGraph) (a b : BjkNodeId) : Prop :=
  Relation.ReflTransGen (Edge g) a b

/-- A rank function witnessing acyclicity: every dependency edge strictly
decreases the rank. -/
def IsRank (g : BjkGraph) (rank : BjkNodeId → Nat) : Prop :=
  ∀ a b, Edge g a b → rank b < rank a

/-- Acyclicity of the dependency graph, as admitting a rank function. -/
def Acyclic (g : BjkGraph) : Prop :=
  ∃ rank, IsRank g rank

/-- The context fields the interpreter never writes. -/
def sameFrame (a b : InterpreterContext) : Prop :=
  b.external_param_values = a.external_param_values ∧
  b.node_definitions = a.node_definitions ∧
  b.target_node = a.target_node ∧
  b.gizmos_enabled = a.gizmos_enabled ∧
  b.gizmo_config = a.gizmo_config

/-- A cache is closed when every cached node's connection producers are
cached too. -/
def ClosedCache (g : BjkGraph) (c : List (BjkNodeId × LTable)) : Prop :=
  ∀ id, (cacheLookup c id).isSome = true →
    ∀ j, Edge g id j → (cacheLookup c j).isSome = true

/-- Indicator: 1 when `id` is cached in `b` but was not cached in `a`. -/
def newCached (a b : List (BjkNodeId × LTable)) (id : BjkNodeId) : Nat :=
  if (cacheLookup b id).isSome && !(cacheLookup a id).isSome then 1 else 0

/-- Concrete diamond-shaped graph: node 3 (target, return output `v`)
consumes nodes 1 and 2, which both consume node 0. -/
def gA : BjkGraph :=
  ⟨[{ op_name := "src", return_value := none, inputs := [] },
    { op_name := "mid", return_value := none,
      inputs := [⟨"a", .Connection 0 "v"⟩] },
    { op_name := "mid", return_value := none,
      inputs := [⟨"a", .Connection 0 "v"⟩] },
    { op_name := "top", return_value := some "v",
      inputs := [⟨"l", .Connection 1 "v"⟩, ⟨"r", .Connection 2 "v"⟩] }]⟩

/-- Operations for the diamond graph. -/
def luaA : LuaEnv := fun name =>
  if name = "src" then
    .ok { op := some (fun _ => .ok (.table [("v", .num 1)]))
          pre_gizmo := none
          post_gizmo := none }
  else if name = "mid" then
    .ok { op := some (fun im => .ok (.table [("v", tget im "a")]))
          pre_gizmo := none
          post_gizmo := none }
  else if name = "top" then
    .ok { op := some (fun _ => .ok (.table [("v", .num 7)]))
          pre_gizmo := none
          post_gizmo := none }
  else .error "unknown op"

/-- Definitions table for the diamond graph: no gizmo support. -/
def defsA : NodeDefinitions := fun _ => some ⟨false⟩

/-- Rank function witnessing the diamond graph's acyclicity. -/
def rankA : BjkNodeId → Nat := fun i =>
  if i = 0 then 0 else if i = 3 then 2 else 1

/-- A nonempty (unused) parameter store for the diamond graph. -/
def valsA : ExternalParameterValues := [(⟨0, "unused"⟩, .num 3)]

/-- Initial context for evaluating the diamond graph's target. -/
def ctxA0 : InterpreterContext := init_context [] defsA 3 .IgnoreGizmos

/-- Single node with one External input `x` and an empty store. -/
def gB : BjkGraph :=
  ⟨[{ op_name := "b", return_value := none,
      inputs := [⟨"x", .External false⟩] }]⟩

/-- Echo operation for the external-parameter graph. -/
def luaB : LuaEnv := fun _ =>
  .ok { op := some (fun im => .ok (.table im))
        pre_gizmo := none
        post_gizmo := none }

/-- Definitions table for the external-parameter graph. -/
def defsB : NodeDefinitions := fun _ => some ⟨false⟩

/-- Initial context with an empty store for the external-parameter
graph. -/
def ctxB0 : InterpreterContext := init_context [] defsB 0 .IgnoreGizmos

/-- Single gizmo-supporting node. -/
def gC : BjkGraph :=
  ⟨[{ op_name := "gz", return_value := none, inputs := [] }]⟩

/-- Node table with pre- and post-gizmo hooks: the pre-hook replaces the
input map, the post-hook returns one gizmo. -/
def ntC : NodeTable :=
  { op := some (fun im => .ok (.table im))
    pre_gizmo := some (fun _ _ => .ok [("p", .num 1)])
    post_gizmo := some (fun _ => .ok [9]) }

/-- Lua state serving the gizmo node table. -/
def luaC : LuaEnv := fun _ => .ok ntC

/-- Definitions table declaring gizmo support. -/
def defsC : NodeDefinitions := fun _ => some ⟨true⟩

/-- Two-node chain whose consumer names a producer output (`y`) the
producer never writes, and whose return output is `ok`. -/
def gD : BjkGraph :=
  ⟨[{ op_name := "prod", return_value := none, inputs := [] },
    { op_name := "cons", return_value := some "ok",
      inputs := [⟨"x", .Connection 0 "y"⟩] }]⟩

/-- Operations for the mismatch chain: the producer returns an empty
table, the consumer a constant table. -/
def luaD : LuaEnv := fun name =>
  if name = "prod" then
    .ok { op := some (fun _ => .ok (.table []))
          pre_gizmo := none
          post_gizmo := none }
  else
    .ok { op := some (fun _ => .ok (.table [("ok", .num 7)]))
          pre_gizmo := none
          post_gizmo := none }

/-- Definitions table for the mismatch chain. -/
def defsD : NodeDefinitions := fun _ => some ⟨false⟩

/-- The mismatch chain with a return-output name (`nope`) the consumer
never produces. -/
def gF : BjkGraph :=
  ⟨[{ op_name := "prod", return_value := none, inputs := [] },
    { op_name := "cons", return_value := some "nope",
      inputs := [⟨"x", .Connection 0 "y"⟩] }]⟩

/-- Single-node graph for exercising `run_node` on a cached node. -/
def gE : BjkGraph :=
  ⟨[{ op_name := "e", return_value := none, inputs := [] }]⟩

/-- Operation returning a table different from the cached one. -/
def luaE : LuaEnv := fun _ =>
  .ok { op := some (fun _ => .ok (.table [("z", .num 2)]))
        pre_gizmo := none
        post_gizmo := none }

/-- A context whose cache already holds node 0's outputs. -/
def ctxE0 : InterpreterContext :=
  { outputs_cache := [(0, [("y", .num 1)])]
    external_param_values := []
    node_definitions := fun _ => some ⟨false⟩
    target_node := 0
    gizmos_enabled := false
    gizmo_config := .IgnoreGizmos
    gizmo_outputs := []
    trace := [] }

/-- Context for the mismatch chain with the producer already cached with
an empty output table. -/
def ctxD1 : InterpreterContext :=
  { outputs_cache := [(0, [])]
    external_param_values := []
    node_definitions := defsD
    target_node := 1
    gizmos_enabled := false
    gizmo_config := .IgnoreGizmos
    gizmo_outputs := []
    trace := [] }

/-- Context with the producer cached with output `y`. -/
def ctxD2 : InterpreterContext :=
  { ctxD1 with outputs_cache := [(0, [("y", .num 4)])] }

theorem sameFrame_refl (a : InterpreterContext) : sameFrame a a :=
  ⟨rfl, rfl, rfl, rfl, rfl⟩

theorem sameFrame_trans {a b c : InterpreterContext}
    (h1 : sameFrame a b) (h2 : sameFrame b c) : sameFrame a c := by
  obtain ⟨e1, n1, t1, g1, c1⟩ := h1
  obtain ⟨e2, n2, t2, g2, c2⟩ := h2
  exact ⟨e2.trans e1, n2.trans n1, t2.trans t1, g2.trans g1, c2.trans c1⟩

theorem apply_pre_gizmo_frame (nt : NodeTable) (hg : Bool) (n : BjkNodeId)
    (m : LTable) (ctx : InterpreterContext) :
    sameFrame ctx (apply_pre_gizmo nt hg n m ctx).2 := by
  unfold apply_pre_gizmo
  repeat' split
  all_goals exact ⟨rfl, rfl, rfl, rfl, rfl⟩

theorem run_op_frame (nt : NodeTable) (n : BjkNodeId) (m : LTable)
    (ctx : InterpreterContext) : sameFrame ctx (run_op nt n m ctx).2 := by
  unfold run_op
  repeat' split
  all_goals exact ⟨rfl, rfl, rfl, rfl, rfl⟩

theorem apply_post_gizmo_frame (nt : NodeTable) (hg : Bool) (n : BjkNodeId)
    (outs : LTable) (ctx : InterpreterContext) :
    sameFrame ctx (apply_post_gizmo nt hg n outs ctx).2 := by
  unfold apply_post_gizmo
  repeat' split
  all_goals exact ⟨rfl, rfl, rfl, rfl, rfl⟩

theorem resolve_inputs_frame
    (runNodeF : InterpreterContext → BjkNodeId →
      Except RunError Unit × InterpreterContext)
    (hF : ∀ c j, sameFrame c (runNodeF c j).2)
    (node_id : BjkNodeId) :
    ∀ (inputs : List BjkInput) (ctx : InterpreterContext) (acc : LTable),
      sameFrame ctx (resolve_inputs runNodeF node_id inputs ctx acc).2 := by
  intro inputs
  induction inputs with
  | nil => intro ctx acc; exact sameFrame_refl ctx
  | cons input rest ih =>
    intro ctx acc
    simp only [resolve_inputs]
    split
    · rename_i pnode pname hkind
      split
      · exact ih ctx _
      · rename_i hcache
        have hmain := hF ctx pnode
        split
        · rename_i e ctx' heq
          rw [heq] at hmain
          exact hmain
        · rename_i u ctx' heq
          rw [heq] at hmain
          split
          · exact hmain
          · exact sameFrame_trans hmain (ih ctx' _)
    · rename_i promoted hkind
      split
      · exact sameFrame_refl ctx
      · exact ih ctx _

theorem run_node_frame (lua : LuaEnv) (g : BjkGraph) :
    ∀ (fuel : Nat) (ctx : InterpreterContext) (n : BjkNodeId),
      sameFrame ctx (run_node lua g fuel ctx n).2 := by
  intro fuel
  induction fuel with
  | zero => intro ctx n; exact sameFrame_refl ctx
  | succ fuel ih =>
    intro ctx n
    simp only [run_node]
    split
    · exact sameFrame_refl ctx
    · rename_i node_def hdef
      have hres := resolve_inputs_frame (fun c j => run_node lua g fuel c j)
        (fun c j => ih c j) n (getNode g n).inputs ctx []
      split
      · rename_i e ctx1 heq
        rw [heq] at hres
        exact hres
      · rename_i m ctx1 heq
        rw [heq] at hres
        split
        · exact hres
        · rename_i nt hlua
          have hpre := apply_pre_gizmo_frame nt node_def.has_gizmo n m ctx1
          split
          · rename_i e ctx2 heq2
            rw [heq2] at hpre
            exact sameFrame_trans hres hpre
          · rename_i m2 ctx2 heq2
            rw [heq2] at hpre
            have hop := run_op_frame nt n m2 ctx2
            split
            · rename_i e ctx3 heq3
              rw [heq3] at hop
              exact sameFrame_trans hres (sameFrame_trans hpre hop)
            · rename_i outs ctx3 heq3
              rw [heq3] at hop
              have hpost := apply_post_gizmo_frame nt node_def.has_gizmo n outs ctx3
              exact sameFrame_trans hres
                (sameFrame_trans hpre (sameFrame_trans hop hpost))

theorem cacheLookup_insert_self (c : List (BjkNodeId × LTable)) (n : BjkNodeId)
    (t : LTable) : cacheLookup (cacheInsert c n t) n = some t := by
  simp [cacheLookup, cacheInsert, List.find?]

theorem find?_filter_ne {m n : BjkNodeId} (h : ¬ m = n) :
    ∀ c : List (BjkNodeId × LTable),
      List.find? (fun p => p.1 == m) (c.filter fun p => p.1 != n) =
        List.find? (fun p => p.1 == m) c := by
  intro c
  induction c with
  | nil => rfl
  | cons p rest ih =>
    by_cases hp : p.1 = n
    · have h2 : (p.1 == m) = false := by simp [hp, Ne.symm h]
      rw [List.filter_cons, if_neg (by simp [hp]), List.find?_cons, h2] at *
      exact ih
    · rw [List.filter_cons, if_pos (by simp [hp]), List.find?_cons,
        List.find?_cons]
      by_cases hm : p.1 = m
      · simp [hm]
      · have h2 : (p.1 == m) = false := by simp [hm]
        rw [h2]
        exact ih

theorem cacheLookup_insert_ne (c : List (BjkNodeId × LTable)) {m n : BjkNodeId}
    (h : ¬ m = n) (t : LTable) :
    cacheLookup (cacheInsert c n t) m = cacheLookup c m := by
  simp only [cacheLookup, cacheInsert]
  have hnm : (n == m) = false := by
    simp [Ne.symm h]
  rw [List.find?_cons, hnm, find?_filter_ne h c]

theorem apply_pre_gizmo_cache (nt : NodeTable) (hg : Bool) (n : BjkNodeId)
    (m : LTable) (ctx : InterpreterContext) :
    (apply_pre_gizmo nt hg n m ctx).2.outputs_cache = ctx.outputs_cache := by
  unfold apply_pre_gizmo
  repeat' split
  all_goals rfl

theorem apply_pre_gizmo_gizmos (nt : NodeTable) (hg : Bool) (n : BjkNodeId)
    (m : LTable) (ctx : InterpreterContext) :
    (apply_pre_gizmo nt hg n m ctx).2.gizmo_outputs = ctx.gizmo_outputs := by
  unfold apply_pre_gizmo
  repeat' split
  all_goals rfl

theorem run_op_gizmos (nt : NodeTable) (n : BjkNodeId) (m : LTable)
    (ctx : InterpreterContext) :
    (run_op nt n m ctx).2.gizmo_outputs = ctx.gizmo_outputs := by
  unfold run_op
  repeat' split
  all_goals rfl

theorem apply_post_gizmo_cache (nt : NodeTable) (hg : Bool) (n : BjkNodeId)
    (outs : LTable) (ctx : InterpreterContext) :
    (apply_post_gizmo nt hg n outs ctx).2.outputs_cache = ctx.outputs_cache := by
  unfold apply_post_gizmo
  repeat' split
  all_goals rfl

theorem run_op_ok_inv {nt : NodeTable} {n : BjkNodeId} {m : LTable}
    {ctx : InterpreterContext} {outs : LTable} {ctx' : InterpreterContext}
    (h : run_op nt n m ctx = (.ok outs, ctx')) :
    ∃ op_fn, nt.op = some op_fn ∧ op_fn m = .ok (.table outs) ∧
      ctx' = { ctx with
        trace := ctx.trace ++ [.opCall n m]
        outputs_cache := cacheInsert ctx.outputs_cache n outs } := by
  unfold run_op at h
  split at h
  · cases h
  · rename_i op_fn hop
    split at h
    · cases h
    · rename_i outs2 hcall
      cases h
      exact ⟨op_fn, hop, hcall, rfl⟩
    · cases h

theorem run_op_error_inv {nt : NodeTable} {n : BjkNodeId} {m : LTable}
    {ctx : InterpreterContext} {e : RunError} {ctx' : InterpreterContext}
    (h : run_op nt n m ctx = (.error e, ctx')) :
    e = .opMissing ∨ (∃ s, e = .luaError s) ∨ ∃ v, e = .opNotTable v := by
  unfold run_op at h
  split at h
  · cases h; exact Or.inl rfl
  · split at h
    · cases h; exact Or.inr (Or.inl ⟨_, rfl⟩)
    · cases h
    · cases h; exact Or.inr (Or.inr ⟨_, rfl⟩)

theorem apply_pre_gizmo_error_inv {nt : NodeTable} {hg : Bool} {n : BjkNodeId}
    {m : LTable} {ctx : InterpreterContext} {e : RunError}
    {ctx' : InterpreterContext}
    (h : apply_pre_gizmo nt hg n m ctx = (.error e, ctx')) :
    e = .gizmoPreMissing ∨ ∃ s, e = .gizmoPreFailed s := by
  unfold apply_pre_gizmo at h
  split at h
  · split at h
    · split at h
      · cases h; exact Or.inl rfl
      · split at h
        · cases h; exact Or.inr ⟨_, rfl⟩
        · cases h
    · cases h
  · cases h

theorem apply_post_gizmo_error_inv {nt : NodeTable} {hg : Bool} {n : BjkNodeId}
    {outs : LTable} {ctx : InterpreterContext} {e : RunError}
    {ctx' : InterpreterContext}
    (h : apply_post_gizmo nt hg n outs ctx = (.error e, ctx')) :
    e = .gizmoPostMissing ∨ ∃ s, e = .gizmoPostFailed s := by
  unfold apply_post_gizmo at h
  split at h
  · split at h
    · cases h; exact Or.inl rfl
    · split at h
      · cases h; exact Or.inr ⟨_, rfl⟩
      · cases h
  · cases h

/-- Inversion of a successful `run_node` step: all six phases succeeded
in order. -/
theorem run_node_succ_ok_inv {lua : LuaEnv} {g : BjkGraph} {fuel : Nat}
    {ctx : InterpreterContext} {n : BjkNodeId} {u : Unit}
    {ctx' : InterpreterContext}
    (h : run_node lua g (fuel + 1) ctx n = (.ok u, ctx')) :
    ∃ node_def m ctx1 nt m2 ctx2 outs ctx3,
      ctx.node_definitions (getNode g n).op_name = some node_def ∧
      resolve_inputs (fun c j => run_node lua g fuel c j) n
        (getNode g n).inputs ctx [] = (.ok m, ctx1) ∧
      lua (getNode g n).op_name = .ok nt ∧
      apply_pre_gizmo nt node_def.has_gizmo n m ctx1 = (.ok m2, ctx2) ∧
      run_op nt n m2 ctx2 = (.ok outs, ctx3) ∧
      apply_post_gizmo nt node_def.has_gizmo n outs ctx3 = (.ok u, ctx') := by
  rw [run_node] at h
  split at h
  · cases h
  · rename_i node_def hdef
    split at h
    · cases h
    · rename_i m ctx1 hres
      split at h
      · cases h
      · rename_i nt hlua
        split at h
        · cases h
        · rename_i m2 ctx2 hpre
          split at h
          · cases h
          · rename_i outs ctx3 hop
            exact ⟨node_def, m, ctx1, nt, m2, ctx2, outs, ctx3,
              hdef, hres, hlua, hpre, hop, h⟩

/-- A successful `run_node` leaves the evaluated node in the outputs
cache. -/
theorem run_node_ok_cached {lua : LuaEnv} {g : BjkGraph} {fuel : Nat}
    {ctx : InterpreterContext} {n : BjkNodeId} {u : Unit}
    {ctx' : InterpreterContext}
    (h : run_node lua g fuel ctx n = (.ok u, ctx')) :
    (cacheLookup ctx'.outputs_cache n).isSome := by
  match fuel with
  | 0 => rw [run_node] at h; cases h
  | fuel + 1 =>
    obtain ⟨node_def, m, ctx1, nt, m2, ctx2, outs, ctx3,
      hdef, hres, hlua, hpre, hop, hpost⟩ := run_node_succ_ok_inv h
    obtain ⟨op_fn, hopfn, hcall, hctx3⟩ := run_op_ok_inv hop
    have hc : ctx'.outputs_cache = ctx3.outputs_cache := by
      have := apply_post_gizmo_cache nt node_def.has_gizmo n outs ctx3
      rw [hpost] at this
      exact this
    rw [hc, hctx3]
    simp [cacheLookup_insert_self]

theorem resolve_inputs_no_panic
    (runNodeF : InterpreterContext → BjkNodeId →
      Except RunError Unit × InterpreterContext)
    (hok : ∀ c j u c', runNodeF c j = (.ok u, c') →
      (cacheLookup c'.outputs_cache j).isSome = true)
    (hnp : ∀ c j e c', runNodeF c j = (.error e, c') →
      ¬ e = .panicCacheAfterRun ∧ ¬ e = .panicFinalNode)
    (node_id : BjkNodeId) :
    ∀ (inputs : List BjkInput) (ctx : InterpreterContext) (acc : LTable)
      (e : RunError) (ctx' : InterpreterContext),
      resolve_inputs runNodeF node_id inputs ctx acc = (.error e, ctx') →
      ¬ e = .panicCacheAfterRun ∧ ¬ e = .panicFinalNode := by
  intro inputs
  induction inputs with
  | nil => intro ctx acc e ctx' h; cases h
  | cons input rest ih =>
    intro ctx acc e ctx' h
    rw [resolve_inputs] at h
    split at h
    · rename_i pnode pname hkind
      split at h
      · exact ih ctx _ e ctx' h
      · rename_i hcache
        split at h
        · rename_i e1 ctx1 heq
          cases h
          exact hnp ctx pnode e ctx' heq
        · rename_i u ctx1 heq
          split at h
          · rename_i hnone
            have := hok ctx pnode u ctx1 heq
            rw [hnone] at this
            cases this
          · exact ih ctx1 _ e ctx' h
    · rename_i promoted hkind
      split at h
      · cases h
        exact ⟨by simp, by simp⟩
      · exact ih ctx _ e ctx' h

theorem run_node_no_panic (lua : LuaEnv) (g : BjkGraph) :
    ∀ (fuel : Nat) (ctx : InterpreterContext) (n : BjkNodeId) (e : RunError)
      (ctx' : InterpreterContext),
      run_node lua g fuel ctx n = (.error e, ctx') →
      ¬ e = .panicCacheAfterRun ∧ ¬ e = .panicFinalNode := by
  intro fuel
  induction fuel with
  | zero =>
    intro ctx n e ctx' h
    rw [run_node] at h
    cases h
    exact ⟨by simp, by simp⟩
  | succ fuel ih =>
    intro ctx n e ctx' h
    rw [run_node] at h
    split at h
    · cases h
      exact ⟨by simp, by simp⟩
    · rename_i node_def hdef
      split at h
      · rename_i e1 ctx1 hres
        cases h
        exact resolve_inputs_no_panic (fun c j => run_node lua g fuel c j)
          (fun c j u c' hcj => run_node_ok_cached hcj)
          (fun c j e2 c' hcj => ih c j e2 c' hcj) n
          (getNode g n).inputs ctx [] e ctx' hres
      · rename_i m ctx1 hres
        split at h
        · cases h
          exact ⟨by simp, by simp⟩
        · rename_i nt hlua
          split at h
          · rename_i e1 ctx2 hpre
            cases h
            rcases apply_pre_gizmo_error_inv hpre with h1 | ⟨s, h1⟩ <;>
              (subst h1; exact ⟨by simp, by simp⟩)
          · rename_i m2 ctx2 hpre
            split at h
            · rename_i e1 ctx3 hop
              cases h
              rcases run_op_error_inv hop with h1 | ⟨s, h1⟩ | ⟨v, h1⟩ <;>
                (subst h1; exact ⟨by simp, by simp⟩)
            · rename_i outs ctx3 hop
              rcases apply_post_gizmo_error_inv h with h1 | ⟨s, h1⟩ <;>
                (subst h1; exact ⟨by simp, by simp⟩)

theorem isSome_mono_of_pres {a b : List (BjkNodeId × LTable)}
    (pres : ∀ id t, cacheLookup a id = some t → cacheLookup b id = some t) :
    ∀ id, (cacheLookup a id).isSome = true → (cacheLookup b id).isSome = true := by
  intro id h
  obtain ⟨t, ht⟩ := Option.isSome_iff_exists.mp h
  rw [pres id t ht]
  rfl

theorem isSome_cacheInsert (c : List (BjkNodeId × LTable)) (n : BjkNodeId)
    (t : LTable) (id : BjkNodeId) (h : (cacheLookup c id).isSome = true) :
    (cacheLookup (cacheInsert c n t) id).isSome = true := by
  by_cases hid : id = n
  · subst hid
    rw [cacheLookup_insert_self]
    rfl
  · rw [cacheLookup_insert_ne c hid]
    exact h

/-- Success-case closure invariant: the interpreter only caches a node
after all its connection producers are cached, so closure of the cache
is preserved; and the cache only grows. -/
theorem resolve_inputs_closed (g : BjkGraph)
    (runNodeF : InterpreterContext → BjkNodeId →
      Except RunError Unit × InterpreterContext)
    (hF : ∀ c j u c', runNodeF c j = (.ok u, c') →
      ((∀ id, (cacheLookup c.outputs_cache id).isSome = true →
        (cacheLookup c'.outputs_cache id).isSome = true) ∧
       (ClosedCache g c.outputs_cache → ClosedCache g c'.outputs_cache) ∧
       (cacheLookup c'.outputs_cache j).isSome = true))
    (node_id : BjkNodeId) :
    ∀ (inputs : List BjkInput) (ctx : InterpreterContext) (acc : LTable)
      (m : LTable) (ctx' : InterpreterContext),
      resolve_inputs runNodeF node_id inputs ctx acc = (.ok m, ctx') →
      ((∀ id, (cacheLookup ctx.outputs_cache id).isSome = true →
        (cacheLookup ctx'.outputs_cache id).isSome = true) ∧
       (ClosedCache g ctx.outputs_cache → ClosedCache g ctx'.outputs_cache) ∧
       (∀ iname j pname, (⟨iname, .Connection j pname⟩ : BjkInput) ∈ inputs →
        (cacheLookup ctx'.outputs_cache j).isSome = true)) := by
  intro inputs
  induction inputs with
  | nil =>
    intro ctx acc m ctx' h
    cases h
    exact ⟨fun id hid => hid, fun hc => hc, fun iname j pname hmem => by cases hmem⟩
  | cons input rest ih =>
    intro ctx acc m ctx' h
    rw [resolve_inputs] at h
    split at h
    · rename_i pnode pname0 hkind
      split at h
      · rename_i cached hcache
        obtain ⟨mono2, closed2, conns2⟩ := ih ctx _ m ctx' h
        refine ⟨mono2, closed2, ?_⟩
        intro iname j pname hmem
        rcases List.mem_cons.mp hmem with hmem | hmem
        · subst hmem
          cases hkind
          exact mono2 pnode (by rw [hcache]; rfl)
        · exact conns2 iname j pname hmem
      · rename_i hcache
        split at h
        · cases h
        · rename_i u ctx1 heq
          split at h
          · cases h
          · rename_i cached hcached
            obtain ⟨mono1, closed1, cachedj⟩ := hF ctx pnode u ctx1 heq
            obtain ⟨mono2, closed2, conns2⟩ := ih ctx1 _ m ctx' h
            refine ⟨fun id hid => mono2 id (mono1 id hid),
              fun hc => closed2 (closed1 hc), ?_⟩
            intro iname j pname hmem
            rcases List.mem_cons.mp hmem with hmem | hmem
            · subst hmem
              cases hkind
              exact mono2 pnode cachedj
            · exact conns2 iname j pname hmem
    · rename_i promoted hkind
      split at h
      · cases h
      · rename_i v hval
        obtain ⟨mono2, closed2, conns2⟩ := ih ctx _ m ctx' h
        refine ⟨mono2, closed2, ?_⟩
        intro iname j pname hmem
        rcases List.mem_cons.mp hmem with hmem | hmem
        · subst hmem
          cases hkind
        · exact conns2 iname j pname hmem

theorem run_node_closed (lua : LuaEnv) (g : BjkGraph) :
    ∀ (fuel : Nat) (ctx : InterpreterContext) (n : BjkNodeId) (u : Unit)
      (ctx' : InterpreterContext),
      run_node lua g fuel ctx n = (.ok u, ctx') →
      ((∀ id, (cacheLookup ctx.outputs_cache id).isSome = true →
        (cacheLookup ctx'.outputs_cache id).isSome = true) ∧
       (ClosedCache g ctx.outputs_cache → ClosedCache g ctx'.outputs_cache) ∧
       (cacheLookup ctx'.outputs_cache n).isSome = true) := by
  intro fuel
  induction fuel with
  | zero => intro ctx n u ctx' h; rw [run_node] at h; cases h
  | succ fuel ih =>
    intro ctx n u ctx' h
    obtain ⟨node_def, m, ctx1, nt, m2, ctx2, outs, ctx3,
      hdef, hres, hlua, hpre, hop, hpost⟩ := run_node_succ_ok_inv h
    obtain ⟨mono1, closed1, conns1⟩ := resolve_inputs_closed g
      (fun c j => run_node lua g fuel c j)
      (fun c j u' c' hcj => ih c j u' c' hcj) n
      (getNode g n).inputs ctx [] m ctx1 hres
    have hc2 : ctx2.outputs_cache = ctx1.outputs_cache := by
      have := apply_pre_gizmo_cache nt node_def.has_gizmo n m ctx1
      rw [hpre] at this
      exact this
    obtain ⟨op_fn, hopfn, hcall, hctx3⟩ := run_op_ok_inv hop
    have hc3 : ctx3.outputs_cache = cacheInsert ctx1.outputs_cache n outs := by
      rw [hctx3, hc2]
    have hc4 : ctx'.outputs_cache = ctx3.outputs_cache := by
      have := apply_post_gizmo_cache nt node_def.has_gizmo n outs ctx3
      rw [hpost] at this
      exact this
    rw [hc4, hc3]
    refine ⟨?_, ?_, by rw [cacheLookup_insert_self]; rfl⟩
    · intro id hid
      exact isSome_cacheInsert _ n outs id (mono1 id hid)
    · intro hclosed
      have hclosed1 := closed1 hclosed
      intro id hid j hedge
      by_cases hidn : id = n
      · subst hidn
        obtain ⟨iname, pname, hmem⟩ := hedge
        exact isSome_cacheInsert _ id outs j (conns1 iname j pname hmem)
      · rw [cacheLookup_insert_ne _ hidn] at hid
        exact isSome_cacheInsert _ n outs j (hclosed1 id hid j hedge)

theorem newCached_self (a : List (BjkNodeId × LTable)) (id : BjkNodeId) :
    newCached a a id = 0 := by
  unfold newCached
  cases h : (cacheLookup a id).isSome <;> simp [h]

theorem newCached_comp {a b c : List (BjkNodeId × LTable)}
    (mono1 : ∀ id, (cacheLookup a id).isSome = true →
      (cacheLookup b id).isSome = true)
    (mono2 : ∀ id, (cacheLookup b id).isSome = true →
      (cacheLookup c id).isSome = true)
    (id : BjkNodeId) :
    newCached a c id = newCached a b id + newCached b c id := by
  unfold newCached
  cases ha : (cacheLookup a id).isSome
  · cases hb : (cacheLookup b id).isSome
    · cases hc : (cacheLookup c id).isSome <;> simp [ha, hb, hc]
    · have hc := mono2 id hb
      simp [ha, hb, hc]
  · have hb := mono1 id ha
    have hc := mono2 id hb
    simp [ha, hb, hc]

theorem opCount_append (t1 t2 : List Event) (id : BjkNodeId) :
    opCount (t1 ++ t2) id = opCount t1 id + opCount t2 id := by
  unfold opCount
  rw [List.countP_append]

theorem opCount_preCall (n : BjkNodeId) (m : LTable)
    (gs : List BlackjackGizmo) (id : BjkNodeId) :
    opCount [.preCall n m gs] id = 0 := rfl

theorem opCount_postCall (n : BjkNodeId) (outs : LTable) (id : BjkNodeId) :
    opCount [.postCall n outs] id = 0 := rfl

theorem opCount_opCall (n : BjkNodeId) (m : LTable) (id : BjkNodeId) :
    opCount [.opCall n m] id = if n == id then 1 else 0 := by
  cases h : (n == id) <;> simp [opCount, List.countP, List.countP.go, h]

theorem apply_pre_gizmo_opCount (nt : NodeTable) (hg : Bool) (n : BjkNodeId)
    (m : LTable) (ctx : InterpreterContext) (id : BjkNodeId) :
    opCount (apply_pre_gizmo nt hg n m ctx).2.trace id = opCount ctx.trace id := by
  unfold apply_pre_gizmo
  repeat' split
  all_goals simp [opCount_append, opCount_preCall]

theorem apply_post_gizmo_opCount (nt : NodeTable) (hg : Bool) (n : BjkNodeId)
    (outs : LTable) (ctx : InterpreterContext) (id : BjkNodeId) :
    opCount (apply_post_gizmo nt hg n outs ctx).2.trace id = opCount ctx.trace id := by
  unfold apply_post_gizmo
  repeat' split
  all_goals simp [opCount_append, opCount_postCall]

/-- Success-case accounting for the input loop: existing cache entries
are preserved verbatim, nodes newly cached during the loop rank strictly
below the bound, and each operation ran exactly once per newly cached
node. -/
theorem resolve_inputs_count
    (runNodeF : InterpreterContext → BjkNodeId →
      Except RunError Unit × InterpreterContext)
    (rank : BjkNodeId → Nat) (B : Nat)
    (hF : ∀ c j u c', runNodeF c j = (.ok u, c') →
      cacheLookup c.outputs_cache j = none →
      ((∀ id t, cacheLookup c.outputs_cache id = some t →
        cacheLookup c'.outputs_cache id = some t) ∧
       (∀ id, (cacheLookup c'.outputs_cache id).isSome = true →
        (cacheLookup c.outputs_cache id).isSome = true ∨ rank id ≤ rank j) ∧
       (∀ id, opCount c'.trace id = opCount c.trace id +
        newCached c.outputs_cache c'.outputs_cache id)))
    (node_id : BjkNodeId) :
    ∀ (inputs : List BjkInput) (ctx : InterpreterContext) (acc : LTable)
      (m : LTable) (ctx' : InterpreterContext),
      (∀ iname j pname,
        (⟨iname, .Connection j pname⟩ : BjkInput) ∈ inputs → rank j < B) →
      resolve_inputs runNodeF node_id inputs ctx acc = (.ok m, ctx') →
      ((∀ id t, cacheLookup ctx.outputs_cache id = some t →
        cacheLookup ctx'.outputs_cache id = some t) ∧
       (∀ id, (cacheLookup ctx'.outputs_cache id).isSome = true →
        (cacheLookup ctx.outputs_cache id).isSome = true ∨ rank id < B) ∧
       (∀ id, opCount ctx'.trace id = opCount ctx.trace id +
        newCached ctx.outputs_cache ctx'.outputs_cache id)) := by
  intro inputs
  induction inputs with
  | nil =>
    intro ctx acc m ctx' hedge h
    cases h
    exact ⟨fun id t ht => ht, fun id hid => Or.inl hid,
      fun id => by rw [newCached_self]; omega⟩
  | cons input rest ih =>
    intro ctx acc m ctx' hedge h
    have hedge_rest : ∀ iname j pname,
        (⟨iname, .Connection j pname⟩ : BjkInput) ∈ rest → rank j < B :=
      fun iname j pname hmem => hedge iname j pname (List.mem_cons_of_mem _ hmem)
    rw [resolve_inputs] at h
    split at h
    · rename_i pnode pname0 hkind
      split at h
      · exact ih ctx _ m ctx' hedge_rest h
      · rename_i hcache
        split at h
        · cases h
        · rename_i u ctx1 heq
          split at h
          · cases h
          · rename_i cached hcached
            obtain ⟨pres1, bound1, count1⟩ := hF ctx pnode u ctx1 heq hcache
            obtain ⟨pres2, bound2, count2⟩ := ih ctx1 _ m ctx' hedge_rest h
            have hpn : rank pnode < B := by
              refine hedge input.name pnode pname0 ?_
              rw [← hkind]
              exact List.mem_cons_self _ _
            refine ⟨fun id t ht => pres2 id t (pres1 id t ht), ?_, ?_⟩
            · intro id hid
              rcases bound2 id hid with h1 | h1
              · rcases bound1 id h1 with h2 | h2
                · exact Or.inl h2
                · exact Or.inr (lt_of_le_of_lt h2 hpn)
              · exact Or.inr h1
            · intro id
              rw [count2 id, count1 id,
                newCached_comp (isSome_mono_of_pres pres1)
                  (isSome_mono_of_pres pres2) id]
              omega
    · rename_i promoted hkind
      split at h
      · cases h
      · exact ih ctx _ m ctx' hedge_rest h

/-- Success-case accounting for `run_node` on an acyclic graph with rank
function `rank`: evaluating an uncached node preserves every existing
cache entry verbatim, only caches nodes ranking at or below it, and adds
exactly one operation invocation per newly cached node. -/
theorem run_node_count (lua : LuaEnv) (g : BjkGraph) (rank : BjkNodeId → Nat)
    (hrank : IsRank g rank) :
    ∀ (fuel : Nat) (ctx : InterpreterContext) (n : BjkNodeId) (u : Unit)
      (ctx' : InterpreterContext),
      run_node lua g fuel ctx n = (.ok u, ctx') →
      cacheLookup ctx.outputs_cache n = none →
      ((∀ id t, cacheLookup ctx.outputs_cache id = some t →
        cacheLookup ctx'.outputs_cache id = some t) ∧
       (∀ id, (cacheLookup ctx'.outputs_cache id).isSome = true →
        (cacheLookup ctx.outputs_cache id).isSome = true ∨ rank id ≤ rank n) ∧
       (∀ id, opCount ctx'.trace id = opCount ctx.trace id +
        newCached ctx.outputs_cache ctx'.outputs_cache id)) := by
  intro fuel
  induction fuel with
  | zero => intro ctx n u ctx' h h0; rw [run_node] at h; cases h
  | succ fuel ih =>
    intro ctx n u ctx' h h0
    obtain ⟨node_def, m, ctx1, nt, m2, ctx2, outs, ctx3,
      hdef, hres, hlua, hpre, hop, hpost⟩ := run_node_succ_ok_inv h
    have hedge : ∀ iname j pname,
        (⟨iname, .Connection j pname⟩ : BjkInput) ∈ (getNode g n).inputs →
        rank j < rank n :=
      fun iname j pname hmem => hrank n j ⟨iname, pname, hmem⟩
    obtain ⟨pres1, bound1, count1⟩ := resolve_inputs_count
      (fun c j => run_node lua g fuel c j) rank (rank n)
      (fun c j u' c' hcj h0' => ih c j u' c' hcj h0') n
      (getNode g n).inputs ctx [] m ctx1 hedge hres
    -- the node itself is still uncached after the input loop
    have hn1 : cacheLookup ctx1.outputs_cache n = none := by
      cases hc : cacheLookup ctx1.outputs_cache n with
      | none => rfl
      | some t =>
        have : (cacheLookup ctx1.outputs_cache n).isSome = true := by
          rw [hc]; rfl
        rcases bound1 n this with h1 | h1
        · rw [h0] at h1; cases h1
        · exact absurd h1 (lt_irrefl (rank n))
    -- the pre-gizmo phase touches neither cache nor op invocations
    have hc2 : ctx2.outputs_cache = ctx1.outputs_cache := by
      have := apply_pre_gizmo_cache nt node_def.has_gizmo n m ctx1
      rw [hpre] at this
      exact this
    have hopc2 : ∀ id, opCount ctx2.trace id = opCount ctx1.trace id := by
      intro id
      have := apply_pre_gizmo_opCount nt node_def.has_gizmo n m ctx1 id
      rw [hpre] at this
      exact this
    obtain ⟨op_fn, hopfn, hcall, hctx3⟩ := run_op_ok_inv hop
    have hc3 : ctx3.outputs_cache = cacheInsert ctx1.outputs_cache n outs := by
      rw [hctx3]
      simp [hc2]
    have hopc3 : ∀ id, opCount ctx3.trace id =
        opCount ctx1.trace id + (if n == id then 1 else 0) := by
      intro id
      rw [hctx3]
      simp only
      rw [opCount_append, opCount_opCall, hopc2]
    -- the post-gizmo phase touches neither cache nor op invocations
    have hc4 : ctx'.outputs_cache = ctx3.outputs_cache := by
      have := apply_post_gizmo_cache nt node_def.has_gizmo n outs ctx3
      rw [hpost] at this
      exact this
    have hopc4 : ∀ id, opCount ctx'.trace id = opCount ctx3.trace id := by
      intro id
      have := apply_post_gizmo_opCount nt node_def.has_gizmo n outs ctx3 id
      rw [hpost] at this
      exact this
    refine ⟨?_, ?_, ?_⟩
    · intro id t ht
      have h1 := pres1 id t ht
      have hidn : ¬ id = n := by
        intro he
        subst he
        rw [h0] at ht
        cases ht
      rw [hc4, hc3, cacheLookup_insert_ne _ hidn]
      exact h1
    · intro id hid
      rw [hc4, hc3] at hid
      by_cases hidn : id = n
      · subst hidn
        exact Or.inr (le_refl _)
      · rw [cacheLookup_insert_ne _ hidn] at hid
        rcases bound1 id hid with h1 | h1
        · exact Or.inl h1
        · exact Or.inr (le_of_lt h1)
    · intro id
      rw [hopc4 id, hopc3 id, count1 id]
      by_cases hidn : id = n
      · subst hidn
        have e1 : newCached ctx.outputs_cache ctx1.outputs_cache id = 0 := by
          unfold newCached
          rw [hn1]
          simp
        have e2 : newCached ctx.outputs_cache ctx'.outputs_cache id = 1 := by
          unfold newCached
          rw [hc4, hc3, cacheLookup_insert_self, h0]
          simp
        rw [e1, e2]
        simp
      · have hni : (n == id) = false := by
          simp
          intro he
          exact hidn he.symm
        have e3 : newCached ctx.outputs_cache ctx'.outputs_cache id =
            newCached ctx.outputs_cache ctx1.outputs_cache id := by
          unfold newCached
          rw [hc4, hc3, cacheLookup_insert_ne _ hidn]
        rw [e3, hni]
        simp

theorem run_op_other_cache {nt : NodeTable} {mId : BjkNodeId} {mm : LTable}
    {ctx : InterpreterContext} {id : BjkNodeId} (h : ¬ id = mId) :
    cacheLookup (run_op nt mId mm ctx).2.outputs_cache id =
      cacheLookup ctx.outputs_cache id := by
  unfold run_op
  repeat' split
  all_goals first
    | rfl
    | exact cacheLookup_insert_ne _ h _

theorem run_op_other_opCount {nt : NodeTable} {mId : BjkNodeId} {mm : LTable}
    {ctx : InterpreterContext} {id : BjkNodeId} (h : ¬ mId = id) :
    opCount (run_op nt mId mm ctx).2.trace id = opCount ctx.trace id := by
  have hb : (mId == id) = false := by
    simp
    intro he
    exact h he
  unfold run_op
  repeat' split
  all_goals first
    | rfl
    | (rw [opCount_append, opCount_opCall, hb]; simp)

/-- Inversion of a successful `run_graph_core`: the target ran
successfully and the result bundle was assembled from the final
context. -/
theorem run_graph_core_ok_inv {lua : LuaEnv} {g : BjkGraph}
    {target : BjkNodeId} {vals : ExternalParameterValues}
    {defs : NodeDefinitions} {cfg : GizmoConfig} {fuel : Nat}
    {res : ProgramResult} {ctx' : InterpreterContext}
    (h : run_graph_core lua g target vals defs cfg fuel = (.ok res, ctx')) :
    ∃ u, run_node lua g fuel (init_context vals defs target cfg) target =
        (.ok u, ctx') ∧
      res.updated_gizmos =
        (if gizmosEnabledOf cfg then some ctx'.gizmo_outputs else none) ∧
      res.updated_values = ctx'.external_param_values ∧
      ((∃ rv output r, (getNode g target).return_value = some rv ∧
          cacheLookup ctx'.outputs_cache target = some output ∧
          from_lua_value (tget output rv) = .ok r ∧
          res.renderable = some r) ∨
        ((getNode g target).return_value = none ∧ res.renderable = none)) := by
  unfold run_graph_core at h
  split at h
  · cases h
  · rename_i u ctx1 hrun
    split at h
    · rename_i rv hrv
      split at h
      · cases h
      · rename_i output hout
        split at h
        · cases h
        · rename_i r hconv
          cases h
          exact ⟨u, hrun, rfl, rfl,
            Or.inl ⟨rv, output, r, hrv, hout, hconv, rfl⟩⟩
    · rename_i hrv
      cases h
      exact ⟨u, hrun, rfl, rfl, Or.inr ⟨hrv, rfl⟩⟩

theorem resolve_inputs_fuel
    (runNodeF : InterpreterContext → BjkNodeId →
      Except RunError Unit × InterpreterContext)
    (rank : BjkNodeId → Nat) (B : Nat)
    (hF : ∀ c j, rank j < B → ∀ r c', runNodeF c j = (r, c') →
      ¬ r = .error .outOfFuel)
    (node_id : BjkNodeId) :
    ∀ (inputs : List BjkInput) (ctx : InterpreterContext) (acc : LTable),
      (∀ iname j pname,
        (⟨iname, .Connection j pname⟩ : BjkInput) ∈ inputs → rank j < B) →
      ∀ r ctx', resolve_inputs runNodeF node_id inputs ctx acc = (r, ctx') →
        ¬ r = .error .outOfFuel := by
  intro inputs
  induction inputs with
  | nil => intro ctx acc hedge r ctx' h; cases h; simp
  | cons input rest ih =>
    intro ctx acc hedge r ctx' h
    have hedge_rest : ∀ iname j pname,
        (⟨iname, .Connection j pname⟩ : BjkInput) ∈ rest → rank j < B :=
      fun iname j pname hmem => hedge iname j pname (List.mem_cons_of_mem _ hmem)
    rw [resolve_inputs] at h
    split at h
    · rename_i pnode pname0 hkind
      have hpn : rank pnode < B := by
        refine hedge input.name pnode pname0 ?_
        rw [← hkind]
        exact List.mem_cons_self _ _
      split at h
      · exact ih ctx _ hedge_rest r ctx' h
      · split at h
        · rename_i e ctx1 heq
          injection h with h1 h2
          intro hc
          rw [← h1] at hc
          injection hc with he
          exact hF ctx pnode hpn _ ctx1 heq (by rw [he])
        · rename_i u ctx1 heq
          split at h
          · cases h
            simp
          · exact ih ctx1 _ hedge_rest r ctx' h
    · rename_i promoted hkind
      split at h
      · cases h
        simp
      · exact ih ctx _ hedge_rest r ctx' h

/-- With fuel exceeding the target's rank, evaluation on an acyclic
graph never reports fuel exhaustion: the recursion only descends into
producers of strictly smaller rank. -/
theorem run_node_fuel (lua : LuaEnv) (g : BjkGraph) (rank : BjkNodeId → Nat)
    (hrank : IsRank g rank) :
    ∀ (fuel : Nat) (ctx : InterpreterContext) (n : BjkNodeId),
      rank n < fuel →
      ∀ r ctx', run_node lua g fuel ctx n = (r, ctx') →
        ¬ r = .error .outOfFuel := by
  intro fuel
  induction fuel with
  | zero => intro ctx n hn; cases hn
  | succ fuel ih =>
    intro ctx n hn r ctx' h
    rw [run_node] at h
    split at h
    · cases h; simp
    · rename_i node_def hdef
      have hedge : ∀ iname j pname,
          (⟨iname, .Connection j pname⟩ : BjkInput) ∈ (getNode g n).inputs →
          rank j < fuel := by
        intro iname j pname hmem
        have h1 : rank j < rank n := hrank n j ⟨iname, pname, hmem⟩
        omega
      split at h
      · rename_i e ctx1 hres
        injection h with h1 h2
        intro hc
        rw [← h1] at hc
        injection hc with he
        exact resolve_inputs_fuel (fun c j => run_node lua g fuel c j)
          rank fuel (fun c j hj r' c' hcj => ih c j hj r' c' hcj) n
          (getNode g n).inputs ctx [] hedge _ ctx1 hres (by rw [he])
      · rename_i m ctx1 hres
        split at h
        · cases h; simp
        · rename_i nt hlua
          split at h
          · rename_i e ctx2 hpre
            cases h
            rcases apply_pre_gizmo_error_inv hpre with h1 | ⟨s, h1⟩ <;>
              (subst h1; simp)
          · rename_i m2 ctx2 hpre
            split at h
            · rename_i e ctx3 hop
              cases h
              rcases run_op_error_inv hop with h1 | ⟨s, h1⟩ | ⟨v, h1⟩ <;>
                (subst h1; simp)
            · rename_i outs ctx3 hop
              have hfst : (apply_post_gizmo nt node_def.has_gizmo n
                  outs ctx3).1 = r := by
                rw [h]
              cases hr : (apply_post_gizmo nt node_def.has_gizmo n
                  outs ctx3).1 with
              | ok v => rw [← hfst, hr]; simp
              | error e =>
                have hpost_eq : apply_post_gizmo nt node_def.has_gizmo n
                    outs ctx3 = (.error e,
                      (apply_post_gizmo nt node_def.has_gizmo n outs ctx3).2) := by
                  rw [← hr]
                rcases apply_post_gizmo_error_inv hpost_eq with h1 | ⟨s, h1⟩ <;>
                  (subst h1; rw [← hfst, hr]; simp)

/-- Input-loop part of the missing-external-parameter argument: while
the store (never mutated) lacks the entry for node `n`'s external input
`iname`, no evaluation reaching `n` can cache it, invoke its operation,
or complete `n`'s own input resolution. -/
theorem resolve_inputs_never (s : ExternalParameterValues) (n : BjkNodeId)
    (iname : String) (promoted : Bool)
    (hmiss : epLookup s ⟨n, iname⟩ = none)
    (runNodeF : InterpreterContext → BjkNodeId →
      Except RunError Unit × InterpreterContext)
    (hFframe : ∀ c j, sameFrame c (runNodeF c j).2)
    (hF : ∀ c mId r c', c.external_param_values = s →
      cacheLookup c.outputs_cache n = none →
      runNodeF c mId = (r, c') →
      (cacheLookup c'.outputs_cache n = none ∧
       opCount c'.trace n = opCount c.trace n ∧
       (mId = n → ∀ u, ¬ r = .ok u)))
    (node_id : BjkNodeId) :
    ∀ (inputs : List BjkInput) (ctx : InterpreterContext) (acc : LTable)
      (r : Except RunError LTable) (ctx' : InterpreterContext),
      ctx.external_param_values = s →
      cacheLookup ctx.outputs_cache n = none →
      resolve_inputs runNodeF node_id inputs ctx acc = (r, ctx') →
      (cacheLookup ctx'.outputs_cache n = none ∧
       opCount ctx'.trace n = opCount ctx.trace n ∧
       (node_id = n →
        (⟨iname, .External promoted⟩ : BjkInput) ∈ inputs →
        ∀ m', ¬ r = .ok m')) := by
  intro inputs
  induction inputs with
  | nil =>
    intro ctx acc r ctx' hs h0 h
    injection h with h1 h2
    subst h1
    subst h2
    exact ⟨h0, rfl, fun _ hmem => by cases hmem⟩
  | cons input rest ih =>
    intro ctx acc r ctx' hs h0 h
    rw [resolve_inputs] at h
    split at h
    · rename_i pnode pname0 hkind
      split at h
      · obtain ⟨c1, c2, c3⟩ := ih ctx _ r ctx' hs h0 h
        refine ⟨c1, c2, fun hnid hmem => ?_⟩
        rcases List.mem_cons.mp hmem with hmem | hmem
        · subst hmem; cases hkind
        · exact c3 hnid hmem
      · rename_i hcache
        split at h
        · rename_i e ctx1 heq
          injection h with h1 h2
          subst h1
          subst h2
          obtain ⟨c1, c2, _⟩ := hF ctx pnode _ ctx1 hs h0 heq
          exact ⟨c1, c2, fun _ _ m' => by simp⟩
        · rename_i u ctx1 heq
          obtain ⟨c1, c2, _⟩ := hF ctx pnode _ ctx1 hs h0 heq
          have hs1 : ctx1.external_param_values = s := by
            have hfr := hFframe ctx pnode
            rw [heq] at hfr
            rw [hfr.1, hs]
          split at h
          · injection h with h1 h2
            subst h1
            subst h2
            exact ⟨c1, c2, fun _ _ m' => by simp⟩
          · obtain ⟨d1, d2, d3⟩ := ih ctx1 _ r ctx' hs1 c1 h
            refine ⟨d1, d2.trans c2, fun hnid hmem => ?_⟩
            rcases List.mem_cons.mp hmem with hmem | hmem
            · subst hmem; cases hkind
            · exact d3 hnid hmem
    · rename_i promoted0 hkind
      split at h
      · injection h with h1 h2
        subst h1
        subst h2
        exact ⟨h0, rfl, fun _ _ m' => by simp⟩
      · rename_i v hval
        obtain ⟨d1, d2, d3⟩ := ih ctx _ r ctx' hs h0 h
        refine ⟨d1, d2, fun hnid hmem => ?_⟩
        rcases List.mem_cons.mp hmem with hmem | hmem
        · subst hmem
          cases hkind
          subst hnid
          have h2 : epLookup s ⟨node_id, iname⟩ = some v := by
            rw [← hs]
            exact hval
          rw [hmiss] at h2
          cases h2
        · exact d3 hnid hmem

/-- While the store lacks node `n`'s external input, no `run_node` call
(on any node) caches `n` or invokes its operation, and `run_node` on `n`
itself cannot succeed. -/
theorem run_node_never (lua : LuaEnv) (g : BjkGraph)
    (s : ExternalParameterValues) (n : BjkNodeId) (iname : String)
    (promoted : Bool)
    (hin : (⟨iname, .External promoted⟩ : BjkInput) ∈ (getNode g n).inputs)
    (hmiss : epLookup s ⟨n, iname⟩ = none) :
    ∀ (fuel : Nat) (ctx : InterpreterContext) (mId : BjkNodeId)
      (r : Except RunError Unit) (ctx' : InterpreterContext),
      ctx.external_param_values = s →
      cacheLookup ctx.outputs_cache n = none →
      run_node lua g fuel ctx mId = (r, ctx') →
      (cacheLookup ctx'.outputs_cache n = none ∧
       opCount ctx'.trace n = opCount ctx.trace n ∧
       (mId = n → ∀ u, ¬ r = .ok u)) := by
  intro fuel
  induction fuel with
  | zero =>
    intro ctx mId r ctx' hs h0 h
    rw [run_node] at h
    injection h with h1 h2
    subst h1
    subst h2
    exact ⟨h0, rfl, fun _ u => by simp⟩
  | succ fuel ih =>
    intro ctx mId r ctx' hs h0 h
    rw [run_node] at h
    split at h
    · injection h with h1 h2
      subst h1
      subst h2
      exact ⟨h0, rfl, fun _ u => by simp⟩
    · rename_i node_def hdef
      split at h
      · rename_i e ctx1 hres
        injection h with h1 h2
        subst h1
        subst h2
        obtain ⟨c1, c2, _⟩ := resolve_inputs_never s n iname promoted hmiss
          (fun c j => run_node lua g fuel c j)
          (fun c j => run_node_frame lua g fuel c j)
          (fun c j r' c' hs' h0' hcj => ih c j r' c' hs' h0' hcj)
          mId (getNode g mId).inputs ctx [] _ ctx1 hs h0 hres
        exact ⟨c1, c2, fun _ u => by simp⟩
      · rename_i m ctx1 hres
        obtain ⟨c1, c2, c3⟩ := resolve_inputs_never s n iname promoted hmiss
          (fun c j => run_node lua g fuel c j)
          (fun c j => run_node_frame lua g fuel c j)
          (fun c j r' c' hs' h0' hcj => ih c j r' c' hs' h0' hcj)
          mId (getNode g mId).inputs ctx [] _ ctx1 hs h0 hres
        have hne : ¬ mId = n := by
          intro hmn
          exact c3 hmn (by rw [← hmn] at hin; exact hin) m rfl
        split at h
        · injection h with h1 h2
          subst h1
          subst h2
          exact ⟨c1, c2, fun hmn => absurd hmn hne⟩
        · rename_i nt hlua
          split at h
          · rename_i e ctx2 hpre
            injection h with h1 h2
            subst h1
            have hcc : ctx'.outputs_cache = ctx1.outputs_cache := by
              rw [← h2]
              have := apply_pre_gizmo_cache nt node_def.has_gizmo mId m ctx1
              rw [hpre] at this
              exact this
            have hoc : opCount ctx'.trace n = opCount ctx1.trace n := by
              rw [← h2]
              have := apply_pre_gizmo_opCount nt node_def.has_gizmo mId m ctx1 n
              rw [hpre] at this
              exact this
            exact ⟨by rw [hcc]; exact c1, hoc.trans c2,
              fun hmn => absurd hmn hne⟩
          · rename_i m2 ctx2 hpre
            have hcc2 : ctx2.outputs_cache = ctx1.outputs_cache := by
              have := apply_pre_gizmo_cache nt node_def.has_gizmo mId m ctx1
              rw [hpre] at this
              exact this
            have hoc2 : opCount ctx2.trace n = opCount ctx1.trace n := by
              have := apply_pre_gizmo_opCount nt node_def.has_gizmo mId m ctx1 n
              rw [hpre] at this
              exact this
            have hnm : ¬ n = mId := fun he => hne he.symm
            split at h
            · rename_i e ctx3 hop
              injection h with h1 h2
              subst h1
              have hcc3 : cacheLookup ctx'.outputs_cache n =
                  cacheLookup ctx2.outputs_cache n := by
                rw [← h2]
                have := @run_op_other_cache nt mId m2 ctx2 n hnm
                rw [hop] at this
                exact this
              have hoc3 : opCount ctx'.trace n = opCount ctx2.trace n := by
                rw [← h2]
                have := @run_op_other_opCount nt mId m2 ctx2 n hne
                rw [hop] at this
                exact this
              exact ⟨by rw [hcc3, hcc2]; exact c1,
                (hoc3.trans hoc2).trans c2, fun hmn => absurd hmn hne⟩
            · rename_i outs ctx3 hop
              have hcc3 : cacheLookup ctx3.outputs_cache n =
                  cacheLookup ctx2.outputs_cache n := by
                have := @run_op_other_cache nt mId m2 ctx2 n hnm
                rw [hop] at this
                exact this
              have hoc3 : opCount ctx3.trace n = opCount ctx2.trace n := by
                have := @run_op_other_opCount nt mId m2 ctx2 n hne
                rw [hop] at this
                exact this
              have hcc4 : ctx'.outputs_cache = ctx3.outputs_cache := by
                have := apply_post_gizmo_cache nt node_def.has_gizmo mId outs ctx3
                rw [h] at this
                exact this
              have hoc4 : opCount ctx'.trace n = opCount ctx3.trace n := by
                have := apply_post_gizmo_opCount nt node_def.has_gizmo mId
                  outs ctx3 n
                rw [h] at this
                exact this
              exact ⟨by rw [hcc4, hcc3, hcc2]; exact c1,
                ((hoc4.trans hoc3).trans hoc2).trans c2,
                fun hmn => absurd hmn hne⟩

theorem resolve_inputs_append
    (runNodeF : InterpreterContext → BjkNodeId →
      Except RunError Unit × InterpreterContext)
    (node_id : BjkNodeId) :
    ∀ (xs ys : List BjkInput) (ctx : InterpreterContext) (acc : LTable),
      resolve_inputs runNodeF node_id (xs ++ ys) ctx acc =
        (match resolve_inputs runNodeF node_id xs ctx acc with
         | (.ok m, c1) => resolve_inputs runNodeF node_id ys c1 m
         | (.error e, c1) => (.error e, c1)) := by
  intro xs
  induction xs with
  | nil => intro ys ctx acc; simp [resolve_inputs]
  | cons input rest ih =>
    intro ys ctx acc
    simp only [List.cons_append, resolve_inputs]
    split
    · split
      · exact ih ys ctx _
      · split
        · rfl
        · split
          · rfl
          · exact ih ys _ _
    · split
      · rfl
      · exact ih ys ctx _

theorem run_op_trace_shape (nt : NodeTable) (nid : BjkNodeId) (m : LTable)
    (ctx : InterpreterContext) :
    ((run_op nt nid m ctx).2.trace = ctx.trace ∧ nt.op = none) ∨
    ((run_op nt nid m ctx).2.trace = ctx.trace ++ [.opCall nid m] ∧
      ∃ opf, nt.op = some opf) := by
  unfold run_op
  split
  · rename_i hop
    exact Or.inl ⟨rfl, hop⟩
  · rename_i opf hop
    refine Or.inr ⟨?_, opf, hop⟩
    split <;> rfl

theorem apply_post_trace_shape (nt : NodeTable) (hg : Bool) (nid : BjkNodeId)
    (outs : LTable) (ctx : InterpreterContext) :
    (apply_post_gizmo nt hg nid outs ctx).2.trace = ctx.trace ∨
    (apply_post_gizmo nt hg nid outs ctx).2.trace =
      ctx.trace ++ [.postCall nid outs] := by
  unfold apply_post_gizmo
  repeat' split
  all_goals first
    | exact Or.inl rfl
    | exact Or.inr rfl

/-- Trace shape of the operation-plus-post-gizmo tail of `run_node`: the
events appended are exactly one `opCall` with the (possibly rewritten)
input map when the op callable exists, optionally followed by one
`postCall`; no pre-gizmo event is appended here. -/
theorem op_post_chain (nt : NodeTable) (hg : Bool) (nid : BjkNodeId)
    (m2 : LTable) (ctx2 : InterpreterContext) (r : Except RunError Unit)
    (ctx' : InterpreterContext)
    (h : (match run_op nt nid m2 ctx2 with
          | (.error e, c3) => ((.error e : Except RunError Unit), c3)
          | (.ok outs, c3) => apply_post_gizmo nt hg nid outs c3) = (r, ctx')) :
    ∃ suffix, ctx'.trace = ctx2.trace ++ suffix ∧
      (∀ n' im gz, ¬ (Event.preCall n' im gz) ∈ suffix) ∧
      (∀ n' im, (Event.opCall n' im) ∈ suffix → n' = nid ∧ im = m2) ∧
      (∀ opf, nt.op = some opf → (Event.opCall nid m2) ∈ ctx'.trace) := by
  split at h
  · rename_i e c3 hop
    have hc : ctx' = c3 := by
      injection h with h1 h2
      exact h2.symm
    subst hc
    have hshape := run_op_trace_shape nt nid m2 ctx2
    rw [hop] at hshape
    rcases hshape with ⟨ht, hnone⟩ | ⟨ht, opf, hsome⟩
    · refine ⟨[], by simpa using ht, by simp, by simp, ?_⟩
      intro opf hopf
      rw [hnone] at hopf
      cases hopf
    · refine ⟨[.opCall nid m2], ht, by simp, ?_, ?_⟩
      · intro n' im hmem
        simp at hmem
        exact ⟨hmem.1, hmem.2⟩
      · intro opf2 hopf
        rw [ht]
        simp
  · rename_i outs c3 hop
    have hshape := run_op_trace_shape nt nid m2 ctx2
    rw [hop] at hshape
    rcases hshape with ⟨ht, hnone⟩ | ⟨ht, opf, hsome⟩
    · exfalso
      unfold run_op at hop
      rw [hnone] at hop
      cases hop
    · have hpost := apply_post_trace_shape nt hg nid outs c3
      rw [h] at hpost
      rcases hpost with hp | hp
      · refine ⟨[.opCall nid m2], by rw [hp, ht], by simp, ?_, ?_⟩
        · intro n' im hmem
          simp at hmem
          exact ⟨hmem.1, hmem.2⟩
        · intro opf2 hopf
          rw [hp, ht]
          simp
      · refine ⟨[.opCall nid m2, .postCall nid outs],
          by rw [hp, ht, List.append_assoc]; rfl, by simp, ?_, ?_⟩
        · intro n' im hmem
          simp at hmem
          exact ⟨hmem.1, hmem.2⟩
        · intro opf2 hopf
          rw [hp, ht]
          simp

theorem apply_pre_gizmo_off (nt : NodeTable) (hg : Bool) (n : BjkNodeId)
    (m : LTable) (ctx : InterpreterContext)
    (hoff : ¬ (ctx.gizmos_enabled = true ∧ n = ctx.target_node ∧ hg = true ∧
      ∃ gin, ctx.gizmo_config = .RunGizmosInOut gin)) :
    apply_pre_gizmo nt hg n m ctx = (.ok m, ctx) := by
  unfold apply_pre_gizmo
  split
  · rename_i hcond
    simp only [Bool.and_eq_true, beq_iff_eq] at hcond
    split
    · rename_i gin hcfg
      exact absurd ⟨hcond.1.1, hcond.1.2, hcond.2, gin, hcfg⟩ hoff
    · rfl
  · rfl

theorem apply_pre_gizmo_on (nt : NodeTable) (hg : Bool) (n : BjkNodeId)
    (m : LTable) (ctx : InterpreterContext) (gin : List BlackjackGizmo)
    (h1 : ctx.gizmos_enabled = true) (h2 : n = ctx.target_node)
    (h3 : hg = true) (h4 : ctx.gizmo_config = .RunGizmosInOut gin) :
    apply_pre_gizmo nt hg n m ctx =
      (match nt.pre_gizmo with
       | none => ((.error .gizmoPreMissing : Except RunError LTable), ctx)
       | some pre_fn =>
         match pre_fn m gin with
         | .error e => (.error (.gizmoPreFailed e),
             { ctx with trace := ctx.trace ++ [.preCall n m gin] })
         | .ok new_map => (.ok new_map,
             { ctx with trace := ctx.trace ++ [.preCall n m gin] })) := by
  have hb : (ctx.gizmos_enabled && n == ctx.target_node && hg) = true := by
    simp [h1, h2, h3]
  unfold apply_pre_gizmo
  rw [hb, h4]
  rfl

theorem apply_post_gizmo_off (nt : NodeTable) (hg : Bool) (n : BjkNodeId)
    (outs : LTable) (ctx : InterpreterContext)
    (hoff : ¬ (ctx.gizmos_enabled = true ∧ n = ctx.target_node ∧ hg = true)) :
    apply_post_gizmo nt hg n outs ctx = (.ok (), ctx) := by
  unfold apply_post_gizmo
  split
  · rename_i hcond
    simp only [Bool.and_eq_true, beq_iff_eq] at hcond
    exact absurd ⟨hcond.1.1, hcond.1.2, hcond.2⟩ hoff
  · rfl

theorem apply_post_gizmo_on (nt : NodeTable) (hg : Bool) (n : BjkNodeId)
    (outs : LTable) (ctx : InterpreterContext)
    (h1 : ctx.gizmos_enabled = true) (h2 : n = ctx.target_node)
    (h3 : hg = true) :
    apply_post_gizmo nt hg n outs ctx =
      (match nt.post_gizmo with
       | none => ((.error .gizmoPostMissing : Except RunError Unit), ctx)
       | some post_fn =>
         match post_fn outs with
         | .error e => (.error (.gizmoPostFailed e),
             { ctx with trace := ctx.trace ++ [.postCall n outs] })
         | .ok gs => (.ok (),
             { ctx with trace := ctx.trace ++ [.postCall n outs]
                        gizmo_outputs := gs })) := by
  have hb : (ctx.gizmos_enabled && n == ctx.target_node && hg) = true := by
    simp [h1, h2, h3]
  unfold apply_post_gizmo
  rw [hb]
  rfl

theorem from_lua_value_error_inv {v : LValue} {e : RunError}
    (h : from_lua_value v = .error e) : e = .missingReturnOutput := by
  unfold from_lua_value at h
  split at h
  · injection h with h1
    exact h1.symm
  · cases h

/-- A successful `run_node` invoked the node's operation: an `opCall`
event for the node is on the trace. -/
theorem run_node_ok_opCalled {lua : LuaEnv} {g : BjkGraph} {fuel : Nat}
    {ctx : InterpreterContext} {n : BjkNodeId} {u : Unit}
    {ctx' : InterpreterContext}
    (h : run_node lua g fuel ctx n = (.ok u, ctx')) :
    ∃ im, (Event.opCall n im) ∈ ctx'.trace := by
  match fuel with
  | 0 => rw [run_node] at h; cases h
  | fuel + 1 =>
    obtain ⟨node_def, m, ctx1, nt, m2, ctx2, outs, ctx3,
      hdef, hres, hlua, hpre, hop, hpost⟩ := run_node_succ_ok_inv h
    obtain ⟨op_fn, hopfn, hcall, hctx3⟩ := run_op_ok_inv hop
    have ht3 : (Event.opCall n m2) ∈ ctx3.trace := by
      rw [hctx3]
      simp
    have hshape := apply_post_trace_shape nt node_def.has_gizmo n outs ctx3
    rw [hpost] at hshape
    rcases hshape with hp | hp
    · exact ⟨m2, by rw [hp]; exact ht3⟩
    · exact ⟨m2, by rw [hp]; exact List.mem_append_left _ ht3⟩

/-- C8: Target-in-cache guarantee: every successful `run_node` call
leaves the evaluated node's id in the outputs cache; consequently after
a successful pass the target is cached, and the two modelled `expect`
panics (`panicCacheAfterRun`, the expect after the recursive call at
line 121, and `panicFinalNode`, the expect in `run_graph` at line 75)
are unreachable: no run ever surfaces either. -/
theorem target_in_cache_no_panic :
    (∀ (lua : LuaEnv) (g : BjkGraph) (fuel : Nat) (ctx : InterpreterContext)
       (n : BjkNodeId) (u : Unit) (ctx' : InterpreterContext),
       run_node lua g fuel ctx n = (.ok u, ctx') →
       (cacheLookup ctx'.outputs_cache n).isSome = true) ∧
    (∀ (lua : LuaEnv) (g : BjkGraph) (fuel : Nat) (ctx : InterpreterContext)
       (n : BjkNodeId) (e : RunError) (ctx' : InterpreterContext),
       run_node lua g fuel ctx n = (.error e, ctx') →
       ¬ e = .panicCacheAfterRun ∧ ¬ e = .panicFinalNode) ∧
    (∀ (lua : LuaEnv) (g : BjkGraph) (target : BjkNodeId)
       (vals : ExternalParameterValues) (defs : NodeDefinitions)
       (cfg : GizmoConfig) (fuel : Nat) (res : ProgramResult)
       (ctx' : InterpreterContext),
       run_graph_core lua g target vals defs cfg fuel = (.ok res, ctx') →
       (cacheLookup ctx'.outputs_cache target).isSome = true) ∧
    (∀ (lua : LuaEnv) (g : BjkGraph) (target : BjkNodeId)
       (vals : ExternalParameterValues) (defs : NodeDefinitions)
       (cfg : GizmoConfig) (fuel : Nat) (e : RunError)
       (ctx' : InterpreterContext),
       run_graph_core lua g target vals defs cfg fuel = (.error e, ctx') →
       ¬ e = .panicCacheAfterRun ∧ ¬ e = .panicFinalNode) := by
  refine ⟨?_, ?_, ?_, ?_⟩
  · intro lua g fuel ctx n u ctx' h
    exact run_node_ok_cached h
  · intro lua g fuel ctx n e ctx' h
    exact run_node_no_panic lua g fuel ctx n e ctx' h
  · intro lua g target vals defs cfg fuel res ctx' h
    obtain ⟨u, hrun, _, _, _⟩ := run_graph_core_ok_inv h
    exact run_node_ok_cached hrun
  · intro lua g target vals defs cfg fuel e ctx' h
    unfold run_graph_core at h
    split at h
    · rename_i e1 ctx1 hrun
      injection h with h1 h2
      injection h1 with h1
      rw [← h1]
      exact run_node_no_panic lua g fuel _ target e1 ctx1 hrun
    · rename_i u ctx1 hrun
      split at h
      · rename_i rv hrv
        split at h
        · rename_i hnone
          exfalso
          have := run_node_ok_cached hrun
          rw [hnone] at this
          cases this
        · rename_i output hout
          split at h
          · rename_i e2 hconv
            injection h with h1 h2
            injection h1 with h1
            rw [← h1, from_lua_value_error_inv hconv]
            exact ⟨by simp, by simp⟩
          · cases h
      · cases h

/-- C9: Termination on acyclic graphs: acyclicity is witnessed by a
rank function along which every Connection edge strictly descends; with
any fuel above the node's rank the fuel-instrumented `run_node` never
reports exhaustion, so for every node some finite recursion depth
suffices and the depth-first evaluation terminates. -/
theorem acyclic_terminates (lua : LuaEnv) (g : BjkGraph) (hacy : Acyclic g) :
    (∀ rank, IsRank g rank →
      ∀ (ctx : InterpreterContext) (n : BjkNodeId) (fuel : Nat),
        rank n < fuel →
        ∀ r ctx', run_node lua g fuel ctx n = (r, ctx') →
          ¬ r = .error .outOfFuel) ∧
    (∀ (ctx : InterpreterContext) (n : BjkNodeId), ∃ N, ∀ fuel, N ≤ fuel →
      ∀ r ctx', run_node lua g fuel ctx n = (r, ctx') →
        ¬ r = .error .outOfFuel) := by
  refine ⟨?_, ?_⟩
  · intro rank hrank ctx n fuel hfuel r ctx' h
    exact run_node_fuel lua g rank hrank fuel ctx n hfuel r ctx' h
  · intro ctx n
    obtain ⟨rank, hrank⟩ := hacy
    refine ⟨rank n + 1, ?_⟩
    intro fuel hfuel r ctx' h
    exact run_node_fuel lua g rank hrank fuel ctx n (by omega) r ctx' h

/-- C10: External parameter store unchanged: no phase of the evaluator
writes the store — `run_node` returns it untouched in every outcome, and
the result bundle of a successful pass hands back exactly the mapping
`run_graph` was given. -/
theorem external_params_unchanged :
    (∀ (lua : LuaEnv) (g : BjkGraph) (fuel : Nat) (ctx : InterpreterContext)
       (n : BjkNodeId) (r : Except RunError Unit) (ctx' : InterpreterContext),
       run_node lua g fuel ctx n = (r, ctx') →
       ctx'.external_param_values = ctx.external_param_values) ∧
    (∀ (lua : LuaEnv) (g : BjkGraph) (target : BjkNodeId)
       (vals : ExternalParameterValues) (defs : NodeDefinitions)
       (cfg : GizmoConfig) (fuel : Nat) (r : Except RunError ProgramResult)
       (ctx' : InterpreterContext),
       run_graph_core lua g target vals defs cfg fuel = (r, ctx') →
       (ctx'.external_param_values = vals ∧
        ∀ res, r = .ok res → res.updated_values = vals)) := by
  constructor
  · intro lua g fuel ctx n r ctx' h
    have hfr := run_node_frame lua g fuel ctx n
    rw [h] at hfr
    exact hfr.1
  · intro lua g target vals defs cfg fuel r ctx' h
    have hstore : ∀ c' : InterpreterContext,
        c'.external_param_values =
          (init_context vals defs target cfg).external_param_values →
        c'.external_param_values = vals := fun c' hc => hc
    unfold run_graph_core at h
    split at h
    · rename_i e1 ctx1 hrun
      injection h with h1 h2
      have hfr := run_node_frame lua g fuel (init_context vals defs target cfg)
        target
      rw [hrun] at hfr
      rw [← h2]
      refine ⟨hstore ctx1 hfr.1, ?_⟩
      intro res hres
      rw [← h1] at hres
      cases hres
    · rename_i u ctx1 hrun
      have hfr := run_node_frame lua g fuel (init_context vals defs target cfg)
        target
      rw [hrun] at hfr
      have hv : ctx1.external_param_values = vals := hstore ctx1 hfr.1
      split at h
      · rename_i rv hrv
        split at h
        · injection h with h1 h2
          rw [← h2]
          refine ⟨hv, ?_⟩
          intro res hres
          rw [← h1] at hres
          cases hres
        · rename_i output hout
          split at h
          · rename_i e2 hconv
            injection h with h1 h2
            rw [← h2]
            refine ⟨hv, ?_⟩
            intro res hres
            rw [← h1] at hres
            cases hres
          · rename_i r0 hconv
            injection h with h1 h2
            rw [← h2]
            refine ⟨hv, ?_⟩
            intro res hres
            rw [← h1] at hres
            injection hres with hres
            rw [← hres]
            exact hv
      · injection h with h1 h2
        rw [← h2]
        refine ⟨hv, ?_⟩
        intro res hres
        rw [← h1] at hres
        injection hres with hres
        rw [← hres]
        exact hv

/-- C1: Memoization: in a successful pass over an acyclic graph (rank
function `rank`), every node's operation is invoked at most once, a
node's operation is invoked exactly once precisely when the node ends up
in the output cache, and every node reachable from the target — in
particular one reachable via two or more distinct paths — is cached with
its operation invoked exactly once, so all its consumers read that
single cached entry. -/
theorem memoization_exactly_once (lua : LuaEnv) (g : BjkGraph)
    (rank : BjkNodeId → Nat) (hrank : IsRank g rank)
    (target : BjkNodeId) (vals : ExternalParameterValues)
    (defs : NodeDefinitions) (cfg : GizmoConfig) (fuel : Nat)
    (res : ProgramResult) (ctx' : InterpreterContext)
    (hrun : run_graph_core lua g target vals defs cfg fuel = (.ok res, ctx')) :
    (∀ id, opCount ctx'.trace id ≤ 1) ∧
    (∀ id, opCount ctx'.trace id =
      (if (cacheLookup ctx'.outputs_cache id).isSome = true then 1 else 0)) ∧
    (∀ id, Reachable g target id →
      ((cacheLookup ctx'.outputs_cache id).isSome = true ∧
       opCount ctx'.trace id = 1)) := by
  obtain ⟨u, hnode, _, _, _⟩ := run_graph_core_ok_inv hrun
  have h0 : cacheLookup
      (init_context vals defs target cfg).outputs_cache target = none := rfl
  obtain ⟨pres, bound, count⟩ :=
    run_node_count lua g rank hrank fuel _ target u ctx' hnode h0
  have hcount : ∀ id, opCount ctx'.trace id =
      (if (cacheLookup ctx'.outputs_cache id).isSome = true then 1 else 0) := by
    intro id
    have h1 : opCount (init_context vals defs target cfg).trace id = 0 := rfl
    have h2 : (cacheLookup
        (init_context vals defs target cfg).outputs_cache id).isSome = false := rfl
    rw [count id, h1]
    unfold newCached
    rw [h2]
    cases h3 : (cacheLookup ctx'.outputs_cache id).isSome <;> simp [h3]
  refine ⟨?_, hcount, ?_⟩
  · intro id
    rw [hcount id]
    cases h3 : (cacheLookup ctx'.outputs_cache id).isSome <;> simp [h3]
  · obtain ⟨mono, closed, cachedtgt⟩ :=
      run_node_closed lua g fuel _ target u ctx' hnode
    have hclosed0 : ClosedCache g
        (init_context vals defs target cfg).outputs_cache := by
      intro id hid
      exact absurd hid (by simp [init_context, cacheLookup])
    have hclosed' := closed hclosed0
    intro id hreach
    induction hreach with
    | refl => exact ⟨cachedtgt, by rw [hcount target, cachedtgt]; simp⟩
    | tail hab hbc ih =>
      rename_i b c
      obtain ⟨hb, _⟩ := ih
      have hc : (cacheLookup ctx'.outputs_cache c).isSome = true :=
        hclosed' b hb c hbc
      exact ⟨hc, by rw [hcount c, hc]; simp⟩

theorem from_lua_value_ok_inv {v : LValue} {rt : RenderableThing}
    (h : from_lua_value v = .ok rt) : ¬ v = .nil ∧ rt = ⟨v⟩ := by
  cases v with
  | nil => simp [from_lua_value] at h
  | num n =>
    refine ⟨by simp, ?_⟩
    simp [from_lua_value] at h
    rw [← h]
  | str s =>
    refine ⟨by simp, ?_⟩
    simp [from_lua_value] at h
    rw [← h]
  | table t =>
    refine ⟨by simp, ?_⟩
    simp [from_lua_value] at h
    rw [← h]

/-- C2: Return-output extraction: in a successful pass, a declared
return-output name yields a renderable equal to (the conversion of) the
value under that name in the target's cached outputs, which is then not
nil; with no declared return output the renderable is absent while the
target's operation still ran and its outputs are cached; and if the
declared name is absent from the target's cached outputs (reads as Lua
nil), the pass fails with the missing-return-output error. -/
theorem return_output_extraction (lua : LuaEnv) (g : BjkGraph)
    (target : BjkNodeId) (vals : ExternalParameterValues)
    (defs : NodeDefinitions) (cfg : GizmoConfig) (fuel : Nat)
    (r : Except RunError ProgramResult) (ctx0 : InterpreterContext)
    (hrun : run_graph_core lua g target vals defs cfg fuel = (r, ctx0)) :
    (∀ res, r = .ok res →
      ((∀ rv, (getNode g target).return_value = some rv →
        ∃ outs, cacheLookup ctx0.outputs_cache target = some outs ∧
          ¬ tget outs rv = .nil ∧
          res.renderable = some ⟨tget outs rv⟩) ∧
       ((getNode g target).return_value = none →
        (res.renderable = none ∧
         (cacheLookup ctx0.outputs_cache target).isSome = true ∧
         ∃ im, (Event.opCall target im) ∈ ctx0.trace)))) ∧
    (∀ rv u ctxr outs,
      (getNode g target).return_value = some rv →
      run_node lua g fuel (init_context vals defs target cfg) target =
        (.ok u, ctxr) →
      cacheLookup ctxr.outputs_cache target = some outs →
      tget outs rv = .nil →
      r = .error .missingReturnOutput) := by
  constructor
  · intro res hres
    rw [hres] at hrun
    obtain ⟨u, hnode, _, _, hdisj⟩ := run_graph_core_ok_inv hrun
    rcases hdisj with ⟨rv0, output, r0, hrv0, hout, hconv, hrend⟩ | ⟨hrv0, hrend⟩
    · constructor
      · intro rv hrv
        rw [hrv0] at hrv
        injection hrv with hrveq
        subst hrveq
        obtain ⟨hnil, hval⟩ := from_lua_value_ok_inv hconv
        exact ⟨output, hout, hnil, by rw [hrend, hval]⟩
      · intro hnone
        rw [hrv0] at hnone
        cases hnone
    · constructor
      · intro rv hrv
        rw [hrv0] at hrv
        cases hrv
      · intro _
        exact ⟨hrend, run_node_ok_cached hnode, run_node_ok_opCalled hnode⟩
  · intro rv u ctxr outs hrv hnode hout hnil
    unfold run_graph_core at hrun
    split at hrun
    · rename_i e1 ctx1 heq
      rw [hnode] at heq
      injection heq with heq1 heq2
      cases heq1
    · rename_i u1 ctx1 heq
      rw [hnode] at heq
      injection heq with heq1 heq2
      subst heq2
      split at hrun
      · rename_i rv1 hrv1
        rw [hrv] at hrv1
        injection hrv1 with hrv1
        subst hrv1
        split at hrun
        · rename_i hnone2
          rw [hout] at hnone2
          cases hnone2
        · rename_i output2 hout2
          rw [hout] at hout2
          injection hout2 with hout2
          subst hout2
          split at hrun
          · rename_i e2 hconv
            rw [hnil] at hconv
            have he2 := from_lua_value_error_inv hconv
            injection hrun with hr1 hr2
            rw [← hr1, he2]
          · rename_i r0 hconv
            rw [hnil] at hconv
            simp [from_lua_value] at hconv
      · rename_i hnone
        rw [hrv] at hnone
        cases hnone

/-- C5: Missing external parameter: when the store has no entry for an
External-kind input of node `n`, any evaluation of `n` fails (never
returns ok), `n`'s operation is never invoked and no cache entry is
created for `n`; and when the failing input is actually reached (all
inputs before it resolve), the reported error is
`missingExternalParameter` carrying exactly the input name and node
id. -/
theorem missing_external_parameter_fails (lua : LuaEnv) (g : BjkGraph)
    (n : BjkNodeId) (iname : String) (promoted : Bool)
    (s : ExternalParameterValues) (fuel : Nat) (ctx : InterpreterContext)
    (r : Except RunError Unit) (ctx' : InterpreterContext)
    (hin : (⟨iname, .External promoted⟩ : BjkInput) ∈ (getNode g n).inputs)
    (hmiss : epLookup s ⟨n, iname⟩ = none)
    (hs : ctx.external_param_values = s)
    (h0 : cacheLookup ctx.outputs_cache n = none)
    (hrun : run_node lua g fuel ctx n = (r, ctx')) :
    (∀ u, ¬ r = .ok u) ∧
    cacheLookup ctx'.outputs_cache n = none ∧
    opCount ctx'.trace n = opCount ctx.trace n ∧
    (∀ f node_def pre rest m0 ctx1,
      fuel = f + 1 →
      ctx.node_definitions (getNode g n).op_name = some node_def →
      (getNode g n).inputs =
        pre ++ (⟨iname, .External promoted⟩ : BjkInput) :: rest →
      resolve_inputs (fun c j => run_node lua g f c j) n pre ctx [] =
        (.ok m0, ctx1) →
      r = .error (.missingExternalParameter iname n)) := by
  obtain ⟨c1, c2, c3⟩ := run_node_never lua g s n iname promoted hin hmiss
    fuel ctx n r ctx' hs h0 hrun
  refine ⟨fun u => c3 rfl u, c1, c2, ?_⟩
  intro f node_def pre rest m0 ctx1 hf hdef hsplit hresolve
  subst hf
  rw [run_node] at hrun
  simp only [hdef] at hrun
  rw [hsplit] at hrun
  rw [resolve_inputs_append (fun c j => run_node lua g f c j) n pre
    ((⟨iname, .External promoted⟩ : BjkInput) :: rest) ctx []] at hrun
  simp only [hresolve] at hrun
  have hfr := resolve_inputs_frame (fun c j => run_node lua g f c j)
    (fun c j => run_node_frame lua g f c j) n pre ctx []
  rw [hresolve] at hfr
  have hlook : epLookup ctx1.external_param_values ⟨n, iname⟩ = none := by
    rw [hfr.1, hs]
    exact hmiss
  rw [resolve_inputs] at hrun
  simp only [hlook] at hrun
  injection hrun with h1 h2
  rw [← h1]

/-- C3: Gizmo pre-hook gating: with the node's inputs resolved to map
`m`, the pre-gizmo hook is called iff gizmos are enabled, the node is
the target, the definition declares gizmo support, and the config is
`RunGizmosInOut`; when any of these fails, no pre-hook event is emitted
and the operation (when invoked) receives `m` unchanged; when all hold,
a missing hook or a hook failure aborts with the corresponding error,
and a successful hook's returned map replaces the one passed to the
operation. -/
theorem pre_gizmo_gating (lua : LuaEnv) (g : BjkGraph) (fuel : Nat)
    (ctx ctx1 ctx' : InterpreterContext) (n : BjkNodeId)
    (r : Except RunError Unit) (node_def : NodeDef) (m : LTable)
    (nt : NodeTable)
    (hdef : ctx.node_definitions (getNode g n).op_name = some node_def)
    (hres : resolve_inputs (fun c j => run_node lua g fuel c j) n
      (getNode g n).inputs ctx [] = (.ok m, ctx1))
    (hlua : lua (getNode g n).op_name = .ok nt)
    (hrun : run_node lua g (fuel + 1) ctx n = (r, ctx')) :
    (¬ (ctx.gizmos_enabled = true ∧ n = ctx.target_node ∧
        node_def.has_gizmo = true ∧
        ∃ gin, ctx.gizmo_config = .RunGizmosInOut gin) →
      ∃ suffix, ctx'.trace = ctx1.trace ++ suffix ∧
        (∀ n' im gz, ¬ (Event.preCall n' im gz) ∈ suffix) ∧
        (∀ n' im, (Event.opCall n' im) ∈ suffix → n' = n ∧ im = m) ∧
        (∀ opf, nt.op = some opf → (Event.opCall n m) ∈ ctx'.trace)) ∧
    (∀ gin, ctx.gizmos_enabled = true → n = ctx.target_node →
      node_def.has_gizmo = true → ctx.gizmo_config = .RunGizmosInOut gin →
      ((nt.pre_gizmo = none → r = .error .gizmoPreMissing) ∧
       (∀ pre_fn, nt.pre_gizmo = some pre_fn →
         ((∀ e, pre_fn m gin = .error e → r = .error (.gizmoPreFailed e)) ∧
          (∀ m2, pre_fn m gin = .ok m2 →
            ∃ suffix, ctx'.trace =
                ctx1.trace ++ (Event.preCall n m gin) :: suffix ∧
              (∀ n' im, (Event.opCall n' im) ∈ suffix → n' = n ∧ im = m2) ∧
              (∀ opf, nt.op = some opf →
                (Event.opCall n m2) ∈ ctx'.trace)))))) := by
  have hfr := resolve_inputs_frame (fun c j => run_node lua g fuel c j)
    (fun c j => run_node_frame lua g fuel c j) n (getNode g n).inputs ctx []
  rw [hres] at hfr
  rw [run_node] at hrun
  simp only [hdef, hres, hlua] at hrun
  constructor
  · intro hoff
    have hoff1 : ¬ (ctx1.gizmos_enabled = true ∧ n = ctx1.target_node ∧
        node_def.has_gizmo = true ∧
        ∃ gin, ctx1.gizmo_config = .RunGizmosInOut gin) := by
      rintro ⟨a, b, c, gin, d⟩
      refine hoff ⟨?_, ?_, c, gin, ?_⟩
      · rw [← hfr.2.2.2.1]; exact a
      · rw [← hfr.2.2.1]; exact b
      · rw [← hfr.2.2.2.2]; exact d
    rw [apply_pre_gizmo_off nt node_def.has_gizmo n m ctx1 hoff1] at hrun
    exact op_post_chain nt node_def.has_gizmo n m ctx1 r ctx' hrun
  · intro gin h1 h2 h3 h4
    have h1' : ctx1.gizmos_enabled = true := by rw [hfr.2.2.2.1]; exact h1
    have h2' : n = ctx1.target_node := by rw [hfr.2.2.1]; exact h2
    have h4' : ctx1.gizmo_config = .RunGizmosInOut gin := by
      rw [hfr.2.2.2.2]; exact h4
    constructor
    · intro hnone
      have happ : apply_pre_gizmo nt node_def.has_gizmo n m ctx1 =
          (.error .gizmoPreMissing, ctx1) := by
        rw [apply_pre_gizmo_on nt node_def.has_gizmo n m ctx1 gin h1' h2' h3 h4',
          hnone]
      rw [happ] at hrun
      injection hrun with hh1 hh2
      rw [← hh1]
    · intro pre_fn hpf
      constructor
      · intro e he
        have happ : apply_pre_gizmo nt node_def.has_gizmo n m ctx1 =
            (.error (.gizmoPreFailed e),
             { ctx1 with trace := ctx1.trace ++ [.preCall n m gin] }) := by
          rw [apply_pre_gizmo_on nt node_def.has_gizmo n m ctx1 gin h1' h2' h3
            h4', hpf]
          simp [he]
        rw [happ] at hrun
        injection hrun with hh1 hh2
        rw [← hh1]
      · intro m2 hm2
        have happ : apply_pre_gizmo nt node_def.has_gizmo n m ctx1 =
            (.ok m2,
             { ctx1 with trace := ctx1.trace ++ [.preCall n m gin] }) := by
          rw [apply_pre_gizmo_on nt node_def.has_gizmo n m ctx1 gin h1' h2' h3
            h4', hpf]
          simp [hm2]
        rw [happ] at hrun
        obtain ⟨suffix, htr, hpre_none, hopchar, hopmem⟩ :=
          op_post_chain nt node_def.has_gizmo n m2 _ r ctx' hrun
        refine ⟨suffix, ?_, fun n' im hmem => hopchar n' im hmem, hopmem⟩
        rw [htr]
        simp

/-- C4: Gizmo post-hook and result presence: the post-hook fires iff
gizmos are enabled, the node is the target and the definition declares
gizmo support — independent of which enabled config variant is active —
and its returned sequence overwrites the gizmo accumulator (whatever it
contained); the result bundle's updated-gizmos field is present iff
gizmos were enabled, and then equals exactly the target's post-hook
result on the target's cached outputs. -/
theorem post_gizmo_replaces_and_presence :
    (∀ (nt : NodeTable) (hg : Bool) (nid : BjkNodeId) (outs : LTable)
       (c : InterpreterContext),
      ((¬ (c.gizmos_enabled = true ∧ nid = c.target_node ∧ hg = true) →
         apply_post_gizmo nt hg nid outs c = (.ok (), c)) ∧
       (c.gizmos_enabled = true → nid = c.target_node → hg = true →
         ((nt.post_gizmo = none →
            apply_post_gizmo nt hg nid outs c =
              (.error .gizmoPostMissing, c)) ∧
          (∀ pg gs, nt.post_gizmo = some pg → pg outs = .ok gs →
            apply_post_gizmo nt hg nid outs c =
              (.ok (), { c with trace := c.trace ++ [.postCall nid outs]
                                gizmo_outputs := gs })))))) ∧
    (∀ (lua : LuaEnv) (g : BjkGraph) (target : BjkNodeId)
       (vals : ExternalParameterValues) (defs : NodeDefinitions)
       (cfg : GizmoConfig) (fuel : Nat) (res : ProgramResult)
       (ctx' : InterpreterContext),
      run_graph_core lua g target vals defs cfg fuel = (.ok res, ctx') →
      ((res.updated_gizmos =
         (if gizmosEnabledOf cfg = true then some ctx'.gizmo_outputs
          else none)) ∧
       (res.updated_gizmos.isSome = true ↔ gizmosEnabledOf cfg = true) ∧
       (∀ node_def, gizmosEnabledOf cfg = true →
         defs (getNode g target).op_name = some node_def →
         node_def.has_gizmo = true →
         ∃ nt pg outs gs, lua (getNode g target).op_name = .ok nt ∧
           nt.post_gizmo = some pg ∧ pg outs = .ok gs ∧
           (Event.postCall target outs) ∈ ctx'.trace ∧
           cacheLookup ctx'.outputs_cache target = some outs ∧
           res.updated_gizmos = some gs))) := by
  constructor
  · intro nt hg nid outs c
    constructor
    · intro hoff
      exact apply_post_gizmo_off nt hg nid outs c hoff
    · intro h1 h2 h3
      constructor
      · intro hnone
        rw [apply_post_gizmo_on nt hg nid outs c h1 h2 h3, hnone]
      · intro pg gs hpg hgs
        rw [apply_post_gizmo_on nt hg nid outs c h1 h2 h3, hpg]
        simp [hgs]
  · intro lua g target vals defs cfg fuel res ctx' h
    obtain ⟨u, hnode, hupd, hvals, hdisj⟩ := run_graph_core_ok_inv h
    refine ⟨hupd, ?_, ?_⟩
    · rw [hupd]
      cases henb : gizmosEnabledOf cfg <;> simp
    · intro node_def henb hdefs hg
      match fuel with
      | 0 => rw [run_node] at hnode; cases hnode
      | fuel + 1 =>
        obtain ⟨node_def2, m, ctx1, nt, m2, ctx2, outs, ctx3,
          hdef2, hres2, hlua2, hpre2, hop2, hpost2⟩ := run_node_succ_ok_inv hnode
        have hdef2' : defs (getNode g target).op_name = some node_def2 := hdef2
        rw [hdefs] at hdef2'
        injection hdef2' with hdef2'
        subst hdef2'
        -- the frame fields survive to the post-hook context
        have hf1 := resolve_inputs_frame (fun c j => run_node lua g fuel c j)
          (fun c j => run_node_frame lua g fuel c j) target
          (getNode g target).inputs (init_context vals defs target cfg) []
        rw [hres2] at hf1
        have hf2 := apply_pre_gizmo_frame nt node_def.has_gizmo target m ctx1
        rw [hpre2] at hf2
        have hf3 := run_op_frame nt target m2 ctx2
        rw [hop2] at hf3
        have hf := sameFrame_trans hf1 (sameFrame_trans hf2 hf3)
        have h1c : ctx3.gizmos_enabled = true := by
          rw [hf.2.2.2.1]
          exact henb
        have h2c : target = ctx3.target_node := by
          rw [hf.2.2.1]
          rfl
        cases hpg : nt.post_gizmo with
        | none =>
          exfalso
          have happ : apply_post_gizmo nt node_def.has_gizmo target outs ctx3 =
              (.error .gizmoPostMissing, ctx3) := by
            rw [apply_post_gizmo_on nt node_def.has_gizmo target outs ctx3
              h1c h2c hg, hpg]
          rw [happ] at hpost2
          injection hpost2 with hh1 hh2
          cases hh1
        | some pg =>
          cases hcall : pg outs with
          | error e =>
            exfalso
            have happ : apply_post_gizmo nt node_def.has_gizmo target
                outs ctx3 = (.error (.gizmoPostFailed e),
                  { ctx3 with trace := ctx3.trace ++
                      [.postCall target outs] }) := by
              rw [apply_post_gizmo_on nt node_def.has_gizmo target outs ctx3
                h1c h2c hg, hpg]
              simp [hcall]
            rw [happ] at hpost2
            injection hpost2 with hh1 hh2
            cases hh1
          | ok gs =>
            have happ : apply_post_gizmo nt node_def.has_gizmo target
                outs ctx3 = (.ok (),
                  { ctx3 with trace := ctx3.trace ++ [.postCall target outs]
                              gizmo_outputs := gs }) := by
              rw [apply_post_gizmo_on nt node_def.has_gizmo target outs ctx3
                h1c h2c hg, hpg]
              simp [hcall]
            rw [happ] at hpost2
            injection hpost2 with hh1 hh2
            obtain ⟨op_fn, hopfn, hcall2, hctx3⟩ := run_op_ok_inv hop2
            refine ⟨nt, pg, outs, gs, hlua2, hpg, hcall, ?_, ?_, ?_⟩
            · rw [← hh2]
              simp
            · rw [← hh2]
              have : ctx3.outputs_cache =
                  cacheInsert ctx2.outputs_cache target outs := by
                rw [hctx3]
              simp only [this]
              exact cacheLookup_insert_self _ target outs
            · rw [hupd, henb]
              simp
              rw [← hh2]

theorem find?_key_filter_ne (k : String) :
    ∀ acc : LTable, List.find? (fun p => p.1 == k)
      (acc.filter fun p => p.1 != k) = none := by
  intro acc
  induction acc with
  | nil => rfl
  | cons p rest ih =>
    by_cases hp : p.1 = k
    · rw [List.filter_cons, if_neg (by simp [hp])]
      exact ih
    · rw [List.filter_cons, if_pos (by simp [hp]), List.find?_cons]
      have h2 : (p.1 == k) = false := by simp [hp]
      rw [h2]
      exact ih

theorem tget_tset_nil (acc : LTable) (k : String) :
    tget (tset acc k .nil) k = .nil := by
  have h : tset acc k .nil = acc.filter fun p => p.1 != k := rfl
  rw [h]
  unfold tget
  rw [find?_key_filter_ne k acc]

/-- C6 counterexample: in the mismatch chain the consumer names output
`y`, which the producer's cached mapping does not contain — yet the pass
succeeds (with the consumer's own output as renderable) instead of
failing: the `mlua` read with target type `Value` yields nil for the
absent key and raises no error. -/
theorem missing_cached_output_counterexample :
    run_graph luaD gD 1 [] defsD .IgnoreGizmos 10 =
      .ok { renderable := some ⟨.num 7⟩
            updated_gizmos := none
            updated_values := [] } := rfl

/-- C6 amended: resolving a Connection-kind input whose named output is
absent from the producer's cached mapping does not fail — the read
yields Lua nil, the nil write leaves the key absent from the consumer's
input map, and resolution proceeds with the remaining inputs. -/
theorem missing_cached_output_yields_nil
    (runNodeF : InterpreterContext → BjkNodeId →
      Except RunError Unit × InterpreterContext)
    (node_id pnode : BjkNodeId) (iname pname : String)
    (rest : List BjkInput) (ctx : InterpreterContext) (acc outs : LTable)
    (hcache : cacheLookup ctx.outputs_cache pnode = some outs)
    (hnil : tget outs pname = .nil) :
    resolve_inputs runNodeF node_id
        ((⟨iname, .Connection pnode pname⟩ : BjkInput) :: rest) ctx acc =
      resolve_inputs runNodeF node_id rest ctx (tset acc iname .nil) ∧
    tget (tset acc iname .nil) iname = .nil := by
  constructor
  · simp only [resolve_inputs, hcache, hnil]
  · exact tget_tset_nil acc iname

/-- C7 counterexample: calling `run_node` on a node whose id is already
in the outputs cache is not a no-op — the operation is invoked (one
`opCall` event) and the cache entry is overwritten by the fresh outputs,
even though the call returns successfully. -/
theorem run_node_cached_counterexample :
    opCount ((run_node luaE gE 5 ctxE0 0).2).trace 0 = 1 ∧
    cacheLookup ctxE0.outputs_cache 0 = some [("y", .num 1)] ∧
    cacheLookup ((run_node luaE gE 5 ctxE0 0).2).outputs_cache 0 =
      some [("z", .num 2)] ∧
    (run_node luaE gE 5 ctxE0 0).1 = .ok () :=
  ⟨rfl, rfl, rfl, rfl⟩

/-- C7 amended: `run_node` itself performs no memoization check; the
memoization hit happens at the call site: when the input-resolution loop
meets a Connection input whose producer is already cached, it does not
call `run_node` at all — it reads the cached entry and continues with an
unchanged context, so within a pass `run_node` is only entered for
uncached nodes. -/
theorem memoization_at_call_site
    (runNodeF : InterpreterContext → BjkNodeId →
      Except RunError Unit × InterpreterContext)
    (node_id pnode : BjkNodeId) (iname pname : String)
    (rest : List BjkInput) (ctx : InterpreterContext) (acc outs : LTable)
    (hcache : cacheLookup ctx.outputs_cache pnode = some outs) :
    resolve_inputs runNodeF node_id
        ((⟨iname, .Connection pnode pname⟩ : BjkInput) :: rest) ctx acc =
      resolve_inputs runNodeF node_id rest ctx
        (tset acc iname (tget outs pname)) := by
  simp only [resolve_inputs, hcache]

theorem rankA_is : IsRank gA rankA := by
  intro a b hedge
  obtain ⟨iname, pname, hmem⟩ := hedge
  match a with
  | 0 =>
    have hg : getNode gA 0 =
        { op_name := "src", return_value := none, inputs := [] } := rfl
    rw [hg] at hmem
    cases hmem
  | 1 =>
    have hg : getNode gA 1 =
        { op_name := "mid", return_value := none,
          inputs := [⟨"a", .Connection 0 "v"⟩] } := rfl
    rw [hg] at hmem
    simp at hmem
    obtain ⟨-, hb, -⟩ := hmem
    subst hb
    decide
  | 2 =>
    have hg : getNode gA 2 =
        { op_name := "mid", return_value := none,
          inputs := [⟨"a", .Connection 0 "v"⟩] } := rfl
    rw [hg] at hmem
    simp at hmem
    obtain ⟨-, hb, -⟩ := hmem
    subst hb
    decide
  | 3 =>
    have hg : getNode gA 3 =
        { op_name := "top", return_value := some "v",
          inputs := [⟨"l", .Connection 1 "v"⟩, ⟨"r", .Connection 2 "v"⟩] } := rfl
    rw [hg] at hmem
    simp at hmem
    rcases hmem with ⟨-, hb, -⟩ | ⟨-, hb, -⟩ <;> (subst hb; decide)
  | (a + 4) =>
    have hg : getNode gA (a + 4) = default := by
      unfold getNode
      apply List.getD_eq_default
      simp [gA]
    rw [hg] at hmem
    cases hmem

theorem memoization_exactly_once_witness :
    opCount ((run_graph_core luaA gA 3 [] defsA .IgnoreGizmos 10).2).trace
      0 ≤ 1 :=
  (memoization_exactly_once luaA gA rankA rankA_is 3 [] defsA .IgnoreGizmos 10
    { renderable := some ⟨.num 7⟩, updated_gizmos := none,
      updated_values := [] }
    ((run_graph_core luaA gA 3 [] defsA .IgnoreGizmos 10).2) rfl).1 0

theorem return_output_extraction_witness :
    (run_graph_core luaD gF 1 [] defsD .IgnoreGizmos 10).1 =
      .error .missingReturnOutput :=
  (return_output_extraction luaD gF 1 [] defsD .IgnoreGizmos 10
    ((run_graph_core luaD gF 1 [] defsD .IgnoreGizmos 10).1)
    ((run_graph_core luaD gF 1 [] defsD .IgnoreGizmos 10).2) rfl).2
    "nope" ()
    ((run_node luaD gF 10 (init_context [] defsD 1 .IgnoreGizmos) 1).2)
    [("ok", .num 7)] rfl rfl rfl rfl

theorem pre_gizmo_gating_witness :
    (Event.opCall 0 [("p", .num 1)]) ∈
      ((run_node luaC gC 10 (init_context [] defsC 0
        (.RunGizmosInOut [5])) 0).2).trace := by
  obtain ⟨suffix, htr, hchar, hopmem⟩ :=
    (((pre_gizmo_gating luaC gC 9
      (init_context [] defsC 0 (.RunGizmosInOut [5]))
      (init_context [] defsC 0 (.RunGizmosInOut [5]))
      ((run_node luaC gC 10
        (init_context [] defsC 0 (.RunGizmosInOut [5])) 0).2)
      0
      ((run_node luaC gC 10
        (init_context [] defsC 0 (.RunGizmosInOut [5])) 0).1)
      ⟨true⟩ [] ntC rfl rfl rfl rfl).2 [5] rfl rfl rfl rfl).2
      (fun _ _ => .ok [("p", .num 1)]) rfl).2 [("p", .num 1)] rfl
  exact hopmem (fun im => .ok (.table im)) rfl

theorem post_gizmo_replaces_and_presence_witness :
    (({ renderable := none, updated_gizmos := some [9],
        updated_values := [] } : ProgramResult).updated_gizmos.isSome = true ↔
      gizmosEnabledOf (.RunGizmosInOut [5]) = true) :=
  (post_gizmo_replaces_and_presence.2 luaC gC 0 [] defsC
    (.RunGizmosInOut [5]) 10
    { renderable := none, updated_gizmos := some [9], updated_values := [] }
    ((run_graph_core luaC gC 0 [] defsC (.RunGizmosInOut [5]) 10).2)
    rfl).2.1

theorem missing_external_parameter_fails_witness :
    (run_node luaB gB 5 ctxB0 0).1 =
      .error (.missingExternalParameter "x" 0) ∧
    cacheLookup ((run_node luaB gB 5 ctxB0 0).2).outputs_cache 0 = none := by
  obtain ⟨c1, c2, c3, c4⟩ := missing_external_parameter_fails luaB gB 0 "x"
    false [] 5 ctxB0 ((run_node luaB gB 5 ctxB0 0).1)
    ((run_node luaB gB 5 ctxB0 0).2)
    (by simp [getNode, gB]) rfl rfl rfl rfl
  exact ⟨c4 4 ⟨false⟩ [] [] [] ctxB0 rfl rfl rfl rfl, c2⟩

theorem missing_cached_output_yields_nil_witness :
    resolve_inputs (fun c j => run_node luaD gD 5 c j) 1
      [(⟨"x", .Connection 0 "y"⟩ : BjkInput)] ctxD1 [] = (.ok [], ctxD1) := by
  have h := missing_cached_output_yields_nil
    (fun c j => run_node luaD gD 5 c j) 1 0 "x" "y" [] ctxD1 [] [] rfl rfl
  rw [h.1]
  rfl

theorem memoization_at_call_site_witness :
    resolve_inputs (fun c j => run_node luaD gD 5 c j) 1
      [(⟨"x", .Connection 0 "y"⟩ : BjkInput)] ctxD2 [] =
      (.ok [("x", .num 4)], ctxD2) := by
  rw [memoization_at_call_site (fun c j => run_node luaD gD 5 c j) 1 0
    "x" "y" [] ctxD2 [] [("y", .num 4)] rfl]
  rfl

theorem target_in_cache_no_panic_witness :
    (cacheLookup ((run_node luaA gA 10 ctxA0 3).2).outputs_cache 3).isSome =
      true :=
  target_in_cache_no_panic.1 luaA gA 10 ctxA0 3 ()
    ((run_node luaA gA 10 ctxA0 3).2) rfl

theorem acyclic_terminates_witness :
    ¬ (run_node luaA gA 12 ctxA0 3).1 = .error .outOfFuel :=
  (acyclic_terminates luaA gA ⟨rankA, rankA_is⟩).1 rankA rankA_is ctxA0 3 12
    (by decide) ((run_node luaA gA 12 ctxA0 3).1)
    ((run_node luaA gA 12 ctxA0 3).2) rfl

theorem external_params_unchanged_witness :
    InterpreterContext.external_param_values
      ((run_graph_core luaA gA 3 valsA defsA .IgnoreGizmos 10).2) = valsA :=
  (external_params_unchanged.2 luaA gA 3 valsA defsA .IgnoreGizmos 10
    ((run_graph_core luaA gA 3 valsA defsA .IgnoreGizmos 10).1)
    ((run_graph_core luaA gA 3 valsA defsA .IgnoreGizmos 10).2) rfl).1

end Blackjack
